import Mathlib

/-!
Verification of the `clearly-defined` client library (Rust sources:
`src/lib.rs`, `src/definitions.rs`, `src/error.rs`) against its
natural-language specification.

The Rust code is shallowly embedded: JSON documents become an inductive
`Json` value tree (this matches the execution path of the library, whose
batch decoding goes through a buffered `serde` content tree), serde
deserializers become total Lean functions returning `Except`, and the
custom `Definition` visitor loop becomes an explicit fold over the
object's key/value pairs.  External crates used by the sources
(`semver`, `chrono`, `serde_json`) are modelled by faithful Lean
functions where their behaviour is observable through this library.
-/

set_option maxRecDepth 4000

namespace ClearlyDefined

/-- JSON value tree.  Numbers are modelled as integers: every numeric
field of this library's schema is an unsigned integer type. -/
inductive Json where
  | null : Json
  | bool : Bool → Json
  | num : Int → Json
  | str : String → Json
  | arr : List Json → Json
  | obj : List (String × Json) → Json

/-- Deserialization errors, mirroring the `serde::de::Error` constructors
used by the sources. -/
inductive DeErr where
  | missingField : String → DeErr
  | duplicateField : String → DeErr
  | invalidType : String → DeErr
  | custom : String → DeErr
deriving DecidableEq, Repr

/-- `error.rs`: the crate error enum. `Http` carries an opaque transport
error, `HttpStatus` a status code, `Json` a decode error, `Other` a
message. -/
inductive Error where
  | http : String → Error
  | httpStatus : Nat → Error
  | json : DeErr → Error
  | other : String → Error
deriving DecidableEq, Repr

/-- `lib.rs`: the "type" of the component. -/
inductive Shape where
  | crate : Shape
  | git : Shape
deriving DecidableEq, Repr

/-- `Shape::as_str`. -/
def Shape.as_str : Shape → String
  | .crate => "crate"
  | .git => "git"

/-- `impl FromStr for Shape`. -/
def shapeFromStr (s : String) : Except Error Shape :=
  if s = "crate" then .ok .crate
  else if s = "git" then .ok .git
  else .error (.other ("unknown shape '" ++ s ++ "'"))

/-- `lib.rs`: where the component can be found. -/
inductive Provider where
  | cratesio : Provider
  | github : Provider
deriving DecidableEq, Repr

/-- `Provider::as_str`. -/
def Provider.as_str : Provider → String
  | .cratesio => "cratesio"
  | .github => "github"

/-- `impl FromStr for Provider`. -/
def providerFromStr (s : String) : Except Error Provider :=
  if s = "cratesio" then .ok .cratesio
  else if s = "github" then .ok .github
  else .error (.other ("unknown provider '" ++ s ++ "'"))

/-! ### Decimal digit strings

Used to model `u64`/`u32` formatting and parsing (Rust `Display` and
`FromStr` for unsigned integers) and the `semver` crate's numeric
identifiers. -/

/-- Numeric value of an ASCII digit character. -/
def digitVal (c : Char) : Nat := c.toNat - 48

/-- Value of a big-endian list of ASCII digit characters. -/
def digitsToNat (ds : List Char) : Nat :=
  ds.foldl (fun a c => 10 * a + digitVal c) 0

/-- Fuel-driven digit extraction (structural recursion so that concrete
instances evaluate inside the kernel). -/
def natToDecCore : Nat → Nat → List Char
  | 0, _ => []
  | fuel + 1, n =>
    if n = 0 then [] else Nat.digitChar (n % 10) :: natToDecCore fuel (n / 10)

/-- Little-endian decimal digits of a positive number ([] for 0). -/
def natToDecAux (n : Nat) : List Char := natToDecCore n n

theorem natToDecCore_fuel (n f1 f2 : Nat) (h1 : n ≤ f1) (h2 : n ≤ f2) :
    natToDecCore f1 n = natToDecCore f2 n := by
  induction n using Nat.strong_induction_on generalizing f1 f2 with
  | _ n ih =>
    by_cases h : n = 0
    · subst h
      cases f1 <;> cases f2 <;> simp [natToDecCore]
    · obtain ⟨g1, rfl⟩ : ∃ g, f1 = g + 1 := ⟨f1 - 1, by omega⟩
      obtain ⟨g2, rfl⟩ : ∃ g, f2 = g + 1 := ⟨f2 - 1, by omega⟩
      simp only [natToDecCore, h, if_false]
      have hlt : n / 10 < n := Nat.div_lt_self (Nat.pos_of_ne_zero h) (by omega)
      rw [ih (n / 10) hlt g1 g2 (by omega) (by omega)]

theorem natToDecAux_unfold (n : Nat) :
    natToDecAux n =
      if n = 0 then [] else Nat.digitChar (n % 10) :: natToDecAux (n / 10) := by
  unfold natToDecAux
  by_cases h : n = 0
  · subst h
    rfl
  · obtain ⟨m, rfl⟩ : ∃ m, n = m + 1 := ⟨n - 1, by omega⟩
    rw [if_neg h]
    show natToDecCore (m + 1) (m + 1) = _
    simp only [natToDecCore, h, if_false]
    have hle : (m + 1) / 10 ≤ m := by omega
    rw [natToDecCore_fuel ((m + 1) / 10) m ((m + 1) / 10) hle (Nat.le_refl _)]

/-- Canonical decimal digit string of a natural number (big-endian),
as produced by Rust's `Display` for unsigned integers. -/
def natToDec (n : Nat) : List Char :=
  if n = 0 then ['0'] else (natToDecAux n).reverse

/-- Little-endian digit value (Horner) — proof-side companion of
`digitsToNat`. -/
def ofLE : List Char → Nat
  | [] => 0
  | c :: cs => digitVal c + 10 * ofLE cs

theorem digitsToNat_reverse (l : List Char) : digitsToNat l.reverse = ofLE l := by
  unfold digitsToNat
  rw [List.foldl_reverse]
  induction l with
  | nil => rfl
  | cons c cs ih => simp [ofLE, ih]; ring

theorem ofLE_natToDecAux (n : Nat) : ofLE (natToDecAux n) = n := by
  induction n using Nat.strong_induction_on with
  | _ n ih =>
    rw [natToDecAux_unfold]
    by_cases h : n = 0
    · simp [h, ofLE]
    · simp only [h, if_false, ofLE]
      rw [ih (n / 10) (Nat.div_lt_self (Nat.pos_of_ne_zero h) (by omega))]
      have hd : digitVal (Nat.digitChar (n % 10)) = n % 10 := by
        have hlt : n % 10 < 10 := Nat.mod_lt _ (by omega)
        interval_cases h : (n % 10) <;> rfl
      rw [hd]
      omega

theorem digitsToNat_natToDec (n : Nat) : digitsToNat (natToDec n) = n := by
  unfold natToDec
  by_cases h : n = 0
  · simp [h]; rfl
  · simp only [h, if_false]
    rw [digitsToNat_reverse, ofLE_natToDecAux]

theorem isDigit_toNat (c : Char) (h : c.isDigit = true) :
    48 ≤ c.toNat ∧ c.toNat ≤ 57 := by
  simp only [Char.isDigit, Bool.and_eq_true, decide_eq_true_eq] at h
  exact ⟨h.1, h.2⟩

theorem digitChar_digitVal (c : Char) (h : c.isDigit = true) :
    Nat.digitChar (digitVal c) = c := by
  obtain ⟨h1, h2⟩ := isDigit_toNat c h
  have hofn : Char.ofNat c.toNat = c := Char.ofNat_toNat c
  unfold digitVal
  interval_cases hn : c.toNat <;> (rw [← hofn]; decide)

theorem eq_zeroChar_of_digitVal_eq_zero (c : Char) (h : c.isDigit = true)
    (hv : digitVal c = 0) : c = '0' := by
  obtain ⟨h1, _⟩ := isDigit_toNat c h
  have h48 : c.toNat = 48 := by unfold digitVal at hv; omega
  calc c = Char.ofNat c.toNat := (Char.ofNat_toNat c).symm
    _ = Char.ofNat 48 := by rw [h48]
    _ = '0' := by decide

theorem ofLE_ne_zero (l : List Char) (hne : l ≠ [])
    (hdig : ∀ c ∈ l, c.isDigit = true) (hlast : l.getLast? ≠ some '0') :
    ofLE l ≠ 0 := by
  induction l with
  | nil => exact absurd rfl hne
  | cons c cs ih =>
    cases cs with
    | nil =>
      simp only [ofLE, Nat.mul_zero, Nat.add_zero]
      intro hv
      exact hlast (by simp [eq_zeroChar_of_digitVal_eq_zero c (hdig c (by simp)) hv])
    | cons c2 cs2 =>
      have hlast2 : (c2 :: cs2).getLast? ≠ some '0' := by
        rw [List.getLast?_cons_cons] at hlast
        exact hlast
      have htail : ofLE (c2 :: cs2) ≠ 0 :=
        ih (by simp) (fun x hx => hdig x (by simp [hx])) hlast2
      have hv : ofLE (c :: c2 :: cs2) = digitVal c + 10 * ofLE (c2 :: cs2) := rfl
      rw [hv]
      omega

theorem natToDecAux_ofLE (l : List Char) (hne : l ≠ [])
    (hdig : ∀ c ∈ l, c.isDigit = true) (hlast : l.getLast? ≠ some '0') :
    natToDecAux (ofLE l) = l := by
  induction l with
  | nil => exact absurd rfl hne
  | cons c cs ih =>
    have hcd : c.isDigit = true := hdig c (by simp)
    have hvlt : digitVal c < 10 := by
      obtain ⟨h1, h2⟩ := isDigit_toNat c hcd
      unfold digitVal; omega
    cases cs with
    | nil =>
      have hc0 : c ≠ '0' := fun hc => hlast (by simp [hc])
      have hv0 : digitVal c ≠ 0 := fun hv =>
        hc0 (eq_zeroChar_of_digitVal_eq_zero c hcd hv)
      simp only [ofLE, Nat.mul_zero, Nat.add_zero]
      rw [natToDecAux_unfold]
      simp only [hv0, if_false]
      rw [Nat.mod_eq_of_lt hvlt, Nat.div_eq_of_lt hvlt,
        digitChar_digitVal c hcd, natToDecAux_unfold]
      simp
    | cons c2 cs2 =>
      have hlast2 : (c2 :: cs2).getLast? ≠ some '0' := by
        rw [List.getLast?_cons_cons] at hlast
        exact hlast
      have htail : ofLE (c2 :: cs2) ≠ 0 :=
        ofLE_ne_zero _ (by simp) (fun x hx => hdig x (by simp [hx])) hlast2
      have hih : natToDecAux (ofLE (c2 :: cs2)) = c2 :: cs2 :=
        ih (by simp) (fun x hx => hdig x (by simp [hx])) hlast2
      have hv : ofLE (c :: c2 :: cs2) = digitVal c + 10 * ofLE (c2 :: cs2) := rfl
      rw [hv, natToDecAux_unfold]
      have hnz : digitVal c + 10 * ofLE (c2 :: cs2) ≠ 0 := by omega
      simp only [hnz, if_false]
      have hm : (digitVal c + 10 * ofLE (c2 :: cs2)) % 10 = digitVal c := by
        omega
      have hd : (digitVal c + 10 * ofLE (c2 :: cs2)) / 10 = ofLE (c2 :: cs2) := by
        omega
      rw [hm, hd, digitChar_digitVal c hcd, hih]

/-- Uniqueness of canonical decimal representations: rendering the value
of a leading-zero-free digit string gives back the same string. -/
theorem natToDec_digitsToNat (ds : List Char) (hne : ds ≠ [])
    (hdig : ∀ c ∈ ds, c.isDigit = true)
    (hcanon : ds.head? = some '0' → ds = ['0']) :
    natToDec (digitsToNat ds) = ds := by
  by_cases h0 : ds = ['0']
  · subst h0
    have : digitsToNat ['0'] = 0 := by decide
    rw [this]; rfl
  · have hhead : ds.head? ≠ some '0' := fun hh => h0 (hcanon hh)
    have hrev : digitsToNat ds = ofLE ds.reverse := by
      have := digitsToNat_reverse ds.reverse
      rwa [List.reverse_reverse] at this
    have hrne : ds.reverse ≠ [] := by simpa using hne
    have hrdig : ∀ c ∈ ds.reverse, c.isDigit = true := by
      intro c hc; exact hdig c (List.mem_reverse.mp hc)
    have hrlast : ds.reverse.getLast? ≠ some '0' := by
      rw [List.getLast?_reverse]; exact hhead
    have hvz : ofLE ds.reverse ≠ 0 := ofLE_ne_zero _ hrne hrdig hrlast
    rw [hrev]
    unfold natToDec
    simp only [hvz, if_false]
    rw [natToDecAux_ofLE _ hrne hrdig hrlast, List.reverse_reverse]

/-! ### Semantic versions

Model of the `semver` crate as used by `CoordVersion`: strict parsing of
`major.minor.patch[-pre][+build]` with `u64`-bounded numeric components,
no leading zeros in numeric identifiers, and a `Display` that re-renders
the stored components. -/

/-- A parsed semantic version.  As in the `semver` crate, the pre-release
and build metadata are kept as their raw identifier text. -/
structure SemVer where
  major : Nat
  minor : Nat
  patch : Nat
  pre : List Char
  build : List Char
deriving DecidableEq, Repr

/-- Identifier characters allowed in pre-release/build segments:
ASCII alphanumerics and hyphen. -/
def isIdentChar (c : Char) : Bool := c.isDigit || c.isAlpha || c = '-'

/-- Split a character list on a separator character. -/
def splitOnChar (c : Char) : List Char → List (List Char)
  | [] => [[]]
  | x :: xs =>
    match splitOnChar c xs with
    | [] => [[]]
    | g :: gs => if x = c then [] :: g :: gs else (x :: g) :: gs

/-- A valid pre-release segment: non-empty identifier characters, and if
purely numeric it has no leading zero. -/
def validPreSeg (g : List Char) : Bool :=
  !g.isEmpty && g.all isIdentChar &&
    (!(g.all Char.isDigit) || !(g.head? = some '0' && 1 < g.length))

/-- A valid build-metadata segment: non-empty identifier characters
(leading zeros permitted). -/
def validBuildSeg (g : List Char) : Bool :=
  !g.isEmpty && g.all isIdentChar

def validPre (chars : List Char) : Bool :=
  (splitOnChar '.' chars).all validPreSeg

def validBuild (chars : List Char) : Bool :=
  (splitOnChar '.' chars).all validBuildSeg

/-- Parse a numeric identifier (`u64`-bounded, no leading zeros),
returning the value and the remaining input. -/
def parseNumId (cs : List Char) : Option (Nat × List Char) :=
  if cs.takeWhile Char.isDigit = [] then none
  else if (cs.takeWhile Char.isDigit).head? = some '0'
      ∧ 1 < (cs.takeWhile Char.isDigit).length then none
  else if digitsToNat (cs.takeWhile Char.isDigit) < 18446744073709551616 then
    some (digitsToNat (cs.takeWhile Char.isDigit), cs.dropWhile Char.isDigit)
  else none

def expectDot : List Char → Option (List Char)
  | [] => none
  | c :: t => if c = '.' then some t else none

/-- Parse what follows `major.minor.patch`: nothing, `-pre`, `-pre+build`
or `+build`. -/
def semverTail (vmaj vmin vpat : Nat) : List Char → Option SemVer
  | [] => some (SemVer.mk vmaj vmin vpat [] [])
  | c :: r6 =>
    if c = '-' then
      if validPre (r6.takeWhile (fun x => x ≠ '+')) then
        match r6.dropWhile (fun x => x ≠ '+') with
        | [] => some (SemVer.mk vmaj vmin vpat (r6.takeWhile (fun x => x ≠ '+')) [])
        | c2 :: b =>
          if c2 = '+' then
            if validBuild b then
              some (SemVer.mk vmaj vmin vpat (r6.takeWhile (fun x => x ≠ '+')) b)
            else none
          else none
      else none
    else if c = '+' then
      if validBuild r6 then some (SemVer.mk vmaj vmin vpat [] r6)
      else none
    else none

/-- Strict semantic-version parse over characters, modelling
`str::parse::<semver::Version>`. -/
def semverParseChars (cs : List Char) : Option SemVer := do
  let (vmaj, r1) ← parseNumId cs
  let r2 ← expectDot r1
  let (vmin, r3) ← parseNumId r2
  let r4 ← expectDot r3
  let (vpat, r5) ← parseNumId r4
  semverTail vmaj vmin vpat r5

/-- Character-level canonical rendering (the `semver` crate `Display`). -/
def renderSemverChars (v : SemVer) : List Char :=
  natToDec v.major ++ '.' :: natToDec v.minor ++ '.' :: natToDec v.patch
    ++ (if v.pre.isEmpty then [] else '-' :: v.pre)
    ++ (if v.build.isEmpty then [] else '+' :: v.build)

def semverParse (s : String) : Option SemVer := semverParseChars s.data

def renderSemver (v : SemVer) : String := String.mk (renderSemverChars v)

/-- `lib.rs`: a coordinate version, either a strict semantic version or
opaque text. -/
inductive CoordVersion where
  | Version : SemVer → CoordVersion
  | Any : String → CoordVersion
deriving DecidableEq, Repr

/-- `CoordVersion`'s deserializing string visitor: attempt a semver
parse, fall back to the verbatim text. -/
def coordVersionFromStr (s : String) : CoordVersion :=
  match semverParse s with
  | some v => .Version v
  | none => .Any s

/-- `impl fmt::Display for CoordVersion`. -/
def coordVersionDisplay : CoordVersion → String
  | .Version v => renderSemver v
  | .Any s => s

theorem parseNumId_eq_some (cs : List Char) (n : Nat) (rest : List Char)
    (h : parseNumId cs = some (n, rest)) :
    natToDec n ++ rest = cs ∧ (∀ c ∈ natToDec n, c.isDigit = true) := by
  unfold parseNumId at h
  by_cases he : cs.takeWhile Char.isDigit = []
  · rw [if_pos he] at h
    exact absurd h (by simp)
  · rw [if_neg he] at h
    by_cases hz : (cs.takeWhile Char.isDigit).head? = some '0'
        ∧ 1 < (cs.takeWhile Char.isDigit).length
    · rw [if_pos hz] at h
      exact absurd h (by simp)
    · rw [if_neg hz] at h
      by_cases hb : digitsToNat (cs.takeWhile Char.isDigit) < 18446744073709551616
      · rw [if_pos hb] at h
        have hpair : digitsToNat (cs.takeWhile Char.isDigit) = n
            ∧ cs.dropWhile Char.isDigit = rest := by
          simpa using h
        obtain ⟨hn, hrest⟩ := hpair
        have hdig : ∀ c ∈ cs.takeWhile Char.isDigit, c.isDigit = true :=
          fun c hc => List.mem_takeWhile_imp hc
        have hcanon : (cs.takeWhile Char.isDigit).head? = some '0' →
            cs.takeWhile Char.isDigit = ['0'] := by
          intro hh
          have hlen : (cs.takeWhile Char.isDigit).length ≤ 1 := by
            by_contra hl
            exact hz ⟨hh, by omega⟩
          cases hcs : cs.takeWhile Char.isDigit with
          | nil => exact absurd hcs he
          | cons a t =>
            rw [hcs] at hh hlen
            cases t with
            | nil =>
              simp only [List.head?_cons, Option.some_inj] at hh
              rw [hh]
            | cons b t2 => simp at hlen
        have hnd : natToDec n = cs.takeWhile Char.isDigit := by
          rw [← hn]
          exact natToDec_digitsToNat _ he hdig hcanon
        refine ⟨?_, ?_⟩
        · rw [hnd, ← hrest]
          exact List.takeWhile_append_dropWhile _ _
        · intro c hc
          rw [hnd] at hc
          exact hdig c hc
      · rw [if_neg hb] at h
        exact absurd h (by simp)

theorem expectDot_eq_some (l t : List Char) (h : expectDot l = some t) :
    l = '.' :: t := by
  match l with
  | [] => simp [expectDot] at h
  | c :: r =>
    unfold expectDot at h
    by_cases hc : c = '.'
    · simp only [hc, if_true, Option.some_inj] at h
      rw [hc, h]
    · simp [hc] at h

theorem dropWhile_head_false {p : Char → Bool} (l : List Char) (c : Char)
    (t : List Char) (h : l.dropWhile p = c :: t) : p c = false := by
  induction l with
  | nil => simp at h
  | cons x xs ih =>
    rw [List.dropWhile_cons] at h
    by_cases hx : p x
    · simp only [hx, if_true] at h
      exact ih h
    · simp only [hx, Bool.false_eq_true, if_false] at h
      cases h
      simp [hx]

theorem validPre_ne_nil (l : List Char) (h : validPre l = true) : l ≠ [] := by
  intro hl
  rw [hl] at h
  simp [validPre, splitOnChar, validPreSeg] at h

theorem validBuild_ne_nil (l : List Char) (h : validBuild l = true) : l ≠ [] := by
  intro hl
  rw [hl] at h
  simp [validBuild, splitOnChar, validBuildSeg] at h

/-- Tail-rendering inverts tail-parsing. -/
theorem semverTail_roundtrip (a b c : Nat) (r5 : List Char) (v : SemVer)
    (h : semverTail a b c r5 = some v) :
    v.major = a ∧ v.minor = b ∧ v.patch = c ∧
      (if v.pre.isEmpty then [] else '-' :: v.pre)
        ++ (if v.build.isEmpty then [] else '+' :: v.build) = r5 := by
  match r5 with
  | [] =>
    simp only [semverTail, Option.some_inj] at h
    subst h
    simp
  | ch :: r6 =>
    simp only [semverTail] at h
    by_cases hc : ch = '-'
    · rw [if_pos hc] at h
      by_cases hvp : validPre (r6.takeWhile (fun x => x ≠ '+')) = true
      · rw [if_pos hvp] at h
        have hsplit : r6.takeWhile (fun x => x ≠ '+')
            ++ r6.dropWhile (fun x => x ≠ '+') = r6 :=
          List.takeWhile_append_dropWhile _ _
        have hpne : r6.takeWhile (fun x => x ≠ '+') ≠ [] := validPre_ne_nil _ hvp
        cases hr : r6.dropWhile (fun x => decide (x ≠ '+')) with
        | nil =>
          rw [hr] at h
          simp only [Option.some_inj] at h
          subst h
          refine ⟨rfl, rfl, rfl, ?_⟩
          simp only
          rw [if_neg (by simpa using hpne)]
          simp only [List.isEmpty_nil, if_true, List.append_nil]
          rw [hc]
          rw [hr] at hsplit
          rw [List.append_nil] at hsplit
          rw [hsplit]
        | cons c2 bb =>
          rw [hr] at h
          have hc2 : c2 = '+' := by
            have := dropWhile_head_false (p := fun x => decide (x ≠ '+')) r6 c2 bb hr
            simpa using this
          subst hc2
          simp only [eq_self_iff_true, if_true] at h
          by_cases hvb : validBuild bb = true
          · rw [if_pos hvb] at h
            simp only [Option.some_inj] at h
            subst h
            have hbne : bb ≠ [] := validBuild_ne_nil _ hvb
            refine ⟨rfl, rfl, rfl, ?_⟩
            simp only
            rw [if_neg (by simpa using hpne), if_neg (by simpa using hbne)]
            rw [hc]
            rw [hr] at hsplit
            rw [List.cons_append, hsplit]
          · rw [if_neg hvb] at h
            exact absurd h (by simp)
      · rw [if_neg hvp] at h
        exact absurd h (by simp)
    · rw [if_neg hc] at h
      by_cases hp : ch = '+'
      · rw [if_pos hp] at h
        by_cases hvb : validBuild r6 = true
        · rw [if_pos hvb] at h
          simp only [Option.some_inj] at h
          subst h
          have hbne : r6 ≠ [] := validBuild_ne_nil _ hvb
          refine ⟨rfl, rfl, rfl, ?_⟩
          simp only [List.isEmpty_nil, if_true, List.nil_append]
          rw [if_neg (by simpa using hbne), hp]
        · rw [if_neg hvb] at h
          exact absurd h (by simp)
      · rw [if_neg hp] at h
        exact absurd h (by simp)

/-- The `semver` crate round-trip: rendering a successfully parsed
version reproduces the input text exactly. -/
theorem renderSemverChars_parse (cs : List Char) (v : SemVer)
    (h : semverParseChars cs = some v) : renderSemverChars v = cs := by
  unfold semverParseChars at h
  cases h1 : parseNumId cs with
  | none => rw [h1] at h; simp at h
  | some p1 =>
    obtain ⟨vmaj, r1⟩ := p1
    rw [h1] at h
    simp only [Option.bind_eq_bind, Option.some_bind] at h
    cases h2 : expectDot r1 with
    | none => rw [h2] at h; simp at h
    | some r2 =>
      rw [h2] at h
      simp only [Option.some_bind] at h
      cases h3 : parseNumId r2 with
      | none => rw [h3] at h; simp at h
      | some p2 =>
        obtain ⟨vmin, r3⟩ := p2
        rw [h3] at h
        simp only [Option.some_bind] at h
        cases h4 : expectDot r3 with
        | none => rw [h4] at h; simp at h
        | some r4 =>
          rw [h4] at h
          simp only [Option.some_bind] at h
          cases h5 : parseNumId r4 with
          | none => rw [h5] at h; simp at h
          | some p3 =>
            obtain ⟨vpat, r5⟩ := p3
            rw [h5] at h
            simp only [Option.some_bind] at h
            obtain ⟨hmaj, hmin, hpat, htail⟩ := semverTail_roundtrip _ _ _ _ _ h
            obtain ⟨hm1, _⟩ := parseNumId_eq_some _ _ _ h1
            obtain ⟨hm2, _⟩ := parseNumId_eq_some _ _ _ h3
            obtain ⟨hm3, _⟩ := parseNumId_eq_some _ _ _ h5
            unfold renderSemverChars
            rw [hmaj, hmin, hpat]
            rw [expectDot_eq_some _ _ h2] at hm1
            rw [expectDot_eq_some _ _ h4] at hm2
            rw [← hm1, ← hm2, ← hm3, ← htail]
            simp [List.append_assoc, List.cons_append]

theorem renderSemver_parse (s : String) (v : SemVer)
    (h : semverParse s = some v) : renderSemver v = s := by
  unfold renderSemver
  have := renderSemverChars_parse s.data v h
  rw [this]

/-! ### Response entity model (`definitions.rs`)

Each `#[derive(Deserialize)]` struct becomes a record together with a
decoder modelling serde's derived semantics over a buffered value tree:
recognized fields decode by type, a repeated recognized field is a
duplicate-field error, a missing required field is a missing-field
error, `Option` fields accept `null` or an absent key, `#[serde(default)]`
fields fall back to their default, and unknown keys are ignored. -/

/-- First JSON value stored under a key (serde sees the first occurrence
first). -/
def findField (kvs : List (String × Json)) (name : String) : Option Json :=
  (kvs.find? (fun kv => kv.1 = name)).map Prod.snd

def fieldCount (kvs : List (String × Json)) (name : String) : Nat :=
  (kvs.filter (fun kv => kv.1 = name)).length

/-- First recognized field occurring more than once. -/
def firstDup (kvs : List (String × Json)) (names : List String) : Option String :=
  names.find? (fun n => 2 ≤ fieldCount kvs n)

def asObj : Json → Except DeErr (List (String × Json))
  | .obj kvs => .ok kvs
  | _ => .error (.invalidType "map")

def decodeString : Json → Except DeErr String
  | .str s => .ok s
  | _ => .error (.invalidType "string")

def decodeU32 : Json → Except DeErr Nat
  | .num n => if 0 ≤ n ∧ n < 4294967296 then .ok n.toNat
              else .error (.invalidType "u32")
  | _ => .error (.invalidType "u32")

def decodeU8 : Json → Except DeErr Nat
  | .num n => if 0 ≤ n ∧ n < 256 then .ok n.toNat
              else .error (.invalidType "u8")
  | _ => .error (.invalidType "u8")

def decodeVec {α : Type} (d : Json → Except DeErr α) :
    Json → Except DeErr (List α)
  | .arr xs => xs.mapM d
  | _ => .error (.invalidType "sequence")

def decodeOption {α : Type} (d : Json → Except DeErr α) (j : Json) :
    Except DeErr (Option α) :=
  match j with
  | .null => .ok none
  | v => (d v).map some

def reqField {α : Type} (kvs : List (String × Json)) (name : String)
    (d : Json → Except DeErr α) : Except DeErr α :=
  match findField kvs name with
  | some v => d v
  | none => .error (.missingField name)

def optField {α : Type} (kvs : List (String × Json)) (name : String)
    (d : Json → Except DeErr α) : Except DeErr (Option α) :=
  match findField kvs name with
  | some v => decodeOption d v
  | none => .ok none

def defaultField {α : Type} (kvs : List (String × Json)) (name : String)
    (d : Json → Except DeErr α) (dflt : α) : Except DeErr α :=
  match findField kvs name with
  | some v => d v
  | none => .ok dflt

/-- The `Ord` used by `BTreeMap<String, _>`: lexicographic byte-wise
comparison (equivalently, by Unicode scalar value, since UTF-8 preserves
codepoint order byte-wise). -/
def strLtChars : List Char → List Char → Bool
  | [], [] => false
  | [], _ :: _ => true
  | _ :: _, [] => false
  | c1 :: t1, c2 :: t2 =>
    if c1.toNat < c2.toNat then true
    else if c2.toNat < c1.toNat then false
    else strLtChars t1 t2

def strLt (a b : String) : Bool := strLtChars a.data b.data

/-- `BTreeMap` insertion into a key-sorted association list: strictly
smaller keys go left, an equal key is replaced, larger keys recurse. -/
def btreeInsert {α : Type} (k : String) (v : α) :
    List (String × α) → List (String × α)
  | [] => [(k, v)]
  | (k2, v2) :: rest =>
    if strLt k k2 then (k, v) :: (k2, v2) :: rest
    else if k = k2 then (k, v) :: rest
    else (k2, v2) :: btreeInsert k v rest

/-- `BTreeMap<String, String>` decode (later duplicate keys overwrite). -/
def decodeStringMap (j : Json) : Except DeErr (List (String × String)) := do
  let kvs ← asObj j
  let pairs ← kvs.mapM (fun kv => do
    let s ← decodeString kv.2
    pure (kv.1, s))
  pure (pairs.foldl (fun acc kv => btreeInsert kv.1 kv.2 acc) [])

/-- serde's string visitor for `Shape` (`from_str` with errors mapped to
`de::Error::custom`). -/
def decodeShape : Json → Except DeErr Shape
  | .str s =>
    match shapeFromStr s with
    | .ok v => .ok v
    | .error (.other m) => .error (.custom m)
    | .error _ => .error (.custom "")
  | _ => .error (.invalidType "string")

def decodeProvider : Json → Except DeErr Provider
  | .str s =>
    match providerFromStr s with
    | .ok v => .ok v
    | .error (.other m) => .error (.custom m)
    | .error _ => .error (.custom "")
  | _ => .error (.invalidType "string")

/-- `CoordVersion`'s `deserialize_any` visitor accepts only strings and
never fails on one. -/
def decodeCoordVersion : Json → Except DeErr CoordVersion
  | .str s => .ok (coordVersionFromStr s)
  | _ => .error (.invalidType "version")

/-- Calendar date. Modelled from the `chrono` crate's `NaiveDate`. -/
structure NaiveDate where
  year : Nat
  month : Nat
  day : Nat
deriving DecidableEq, Repr

def isLeapYear (y : Nat) : Bool :=
  (y % 4 = 0 && y % 100 ≠ 0) || y % 400 = 0

def daysInMonth (y m : Nat) : Nat :=
  if m = 2 then (if isLeapYear y then 29 else 28)
  else if m = 4 ∨ m = 6 ∨ m = 9 ∨ m = 11 then 30
  else 31

/-- Modelled from the `chrono` crate: ISO-8601 `yyyy-mm-dd` parsing with
calendar validity, as used by `NaiveDate`'s `Deserialize`. -/
def parseDate (s : String) : Option NaiveDate :=
  match splitOnChar '-' s.data with
  | [ys, ms, ds] =>
    if ys.length = 4 ∧ ms.length = 2 ∧ ds.length = 2
        ∧ ys.all Char.isDigit ∧ ms.all Char.isDigit ∧ ds.all Char.isDigit then
      if 1 ≤ digitsToNat ms ∧ digitsToNat ms ≤ 12 ∧ 1 ≤ digitsToNat ds
          ∧ digitsToNat ds ≤ daysInMonth (digitsToNat ys) (digitsToNat ms) then
        some (NaiveDate.mk (digitsToNat ys) (digitsToNat ms) (digitsToNat ds))
      else none
    else none
  | _ => none

def decodeDate : Json → Except DeErr NaiveDate
  | .str s =>
    match parseDate s with
    | some d => .ok d
    | none => .error (.custom "invalid date")
  | _ => .error (.invalidType "string")

/-- Rust `Result::ok`. -/
def resultOk {α : Type} : Except DeErr α → Option α
  | .ok a => some a
  | .error _ => none

/-- `DefCoords`: the coordinates block of a definition (`type` is
renamed to `shape`). -/
structure DefCoords where
  shape : Shape
  provider : Provider
  name : String
  revision : CoordVersion
deriving DecidableEq, Repr

def decodeDefCoords (j : Json) : Except DeErr DefCoords := do
  let kvs ← asObj j
  match firstDup kvs ["type", "provider", "name", "revision"] with
  | some n => .error (.duplicateField n)
  | none => do
    let shape ← reqField kvs "type" decodeShape
    let provider ← reqField kvs "provider" decodeProvider
    let name ← reqField kvs "name" decodeString
    let revision ← reqField kvs "revision" decodeCoordVersion
    pure (DefCoords.mk shape provider name revision)

structure Hashes where
  sha1 : String
  sha256 : Option String
deriving DecidableEq, Repr

def decodeHashes (j : Json) : Except DeErr Hashes := do
  let kvs ← asObj j
  match firstDup kvs ["sha1", "sha256"] with
  | some n => .error (.duplicateField n)
  | none => do
    let sha1 ← reqField kvs "sha1" decodeString
    let sha256 ← optField kvs "sha256" decodeString
    pure (Hashes.mk sha1 sha256)

structure Scores where
  total : Nat
  date : Nat
  source : Nat
deriving DecidableEq, Repr

def decodeScores (j : Json) : Except DeErr Scores := do
  let kvs ← asObj j
  match firstDup kvs ["total", "date", "source"] with
  | some n => .error (.duplicateField n)
  | none => do
    let total ← reqField kvs "total" decodeU32
    let date ← reqField kvs "date" decodeU32
    let source ← reqField kvs "source" decodeU32
    pure (Scores.mk total date source)

structure SourceLocation where
  type : String
  provider : String
  namespce : String
  name : String
  revision : String
  url : String
deriving DecidableEq, Repr

def decodeSourceLocation (j : Json) : Except DeErr SourceLocation := do
  let kvs ← asObj j
  match firstDup kvs ["type", "provider", "namespace", "name", "revision", "url"] with
  | some n => .error (.duplicateField n)
  | none => do
    let ty ← reqField kvs "type" decodeString
    let provider ← reqField kvs "provider" decodeString
    let nmspc ← reqField kvs "namespace" decodeString
    let name ← reqField kvs "name" decodeString
    let revision ← reqField kvs "revision" decodeString
    let url ← reqField kvs "url" decodeString
    pure (SourceLocation.mk ty provider nmspc name revision url)

/-- `Description` (`rename_all = "camelCase"`; `urls` is a
`BTreeMap<String, String>` kept as a sorted association list). -/
structure Description where
  release_date : NaiveDate
  source_location : Option SourceLocation
  project_website : Option String
  urls : List (String × String)
  hashes : Hashes
  files : Nat
  tools : List String
  tool_score : Scores
  score : Scores
deriving DecidableEq, Repr

def decodeDescription (j : Json) : Except DeErr Description := do
  let kvs ← asObj j
  match firstDup kvs ["releaseDate", "sourceLocation", "projectWebsite", "urls",
      "hashes", "files", "tools", "toolScore", "score"] with
  | some n => .error (.duplicateField n)
  | none => do
    let release_date ← reqField kvs "releaseDate" decodeDate
    let source_location ← optField kvs "sourceLocation" decodeSourceLocation
    let project_website ← optField kvs "projectWebsite" decodeString
    let urls ← reqField kvs "urls" decodeStringMap
    let hashes ← reqField kvs "hashes" decodeHashes
    let files ← reqField kvs "files" decodeU32
    let tools ← reqField kvs "tools" (decodeVec decodeString)
    let tool_score ← reqField kvs "toolScore" decodeScores
    let score ← reqField kvs "score" decodeScores
    pure (Description.mk release_date source_location project_website urls
      hashes files tools tool_score score)

structure LicenseScore where
  total : Nat
  declared : Nat
  discovered : Nat
  consistency : Nat
  spdx : Nat
  texts : Nat
deriving DecidableEq, Repr

def decodeLicenseScore (j : Json) : Except DeErr LicenseScore := do
  let kvs ← asObj j
  match firstDup kvs ["total", "declared", "discovered", "consistency",
      "spdx", "texts"] with
  | some n => .error (.duplicateField n)
  | none => do
    let total ← reqField kvs "total" decodeU32
    let declared ← reqField kvs "declared" decodeU32
    let discovered ← reqField kvs "discovered" decodeU32
    let consistency ← reqField kvs "consistency" decodeU32
    let spdx ← reqField kvs "spdx" decodeU32
    let texts ← reqField kvs "texts" decodeU32
    pure (LicenseScore.mk total declared discovered consistency spdx texts)

/-- `Attribution` (`parties` has `#[serde(default)]`). -/
structure Attribution where
  unknown : Nat
  parties : List String
deriving DecidableEq, Repr

def decodeAttribution (j : Json) : Except DeErr Attribution := do
  let kvs ← asObj j
  match firstDup kvs ["unknown", "parties"] with
  | some n => .error (.duplicateField n)
  | none => do
    let unknown ← reqField kvs "unknown" decodeU32
    let parties ← defaultField kvs "parties" (decodeVec decodeString) []
    pure (Attribution.mk unknown parties)

structure Discovered where
  unknown : Nat
  expressions : List String
deriving DecidableEq, Repr

def decodeDiscovered (j : Json) : Except DeErr Discovered := do
  let kvs ← asObj j
  match firstDup kvs ["unknown", "expressions"] with
  | some n => .error (.duplicateField n)
  | none => do
    let unknown ← reqField kvs "unknown" decodeU32
    let expressions ← reqField kvs "expressions" (decodeVec decodeString)
    pure (Discovered.mk unknown expressions)

structure Facet where
  attribution : Attribution
  discovered : Discovered
  files : Nat
deriving DecidableEq, Repr

def decodeFacet (j : Json) : Except DeErr Facet := do
  let kvs ← asObj j
  match firstDup kvs ["attribution", "discovered", "files"] with
  | some n => .error (.duplicateField n)
  | none => do
    let attribution ← reqField kvs "attribution" decodeAttribution
    let discovered ← reqField kvs "discovered" decodeDiscovered
    let files ← reqField kvs "files" decodeU32
    pure (Facet.mk attribution discovered files)

structure Facets where
  core : Facet
deriving DecidableEq, Repr

def decodeFacets (j : Json) : Except DeErr Facets := do
  let kvs ← asObj j
  match firstDup kvs ["core"] with
  | some n => .error (.duplicateField n)
  | none => do
    let core ← reqField kvs "core" decodeFacet
    pure (Facets.mk core)

/-- `License` (`rename_all = "camelCase"`). -/
structure License where
  declared : String
  facets : Facets
  tool_score : LicenseScore
  score : LicenseScore
deriving DecidableEq, Repr

def decodeLicense (j : Json) : Except DeErr License := do
  let kvs ← asObj j
  match firstDup kvs ["declared", "facets", "toolScore", "score"] with
  | some n => .error (.duplicateField n)
  | none => do
    let declared ← reqField kvs "declared" decodeString
    let facets ← reqField kvs "facets" decodeFacets
    let tool_score ← reqField kvs "toolScore" decodeLicenseScore
    let score ← reqField kvs "score" decodeLicenseScore
    pure (License.mk declared facets tool_score score)

/-- `File` (`attributions` and `natures` have `#[serde(default)]`). -/
structure File where
  path : String
  hashes : Option Hashes
  license : Option String
  attributions : List String
  natures : List String
  token : Option String
deriving DecidableEq, Repr

def decodeFile (j : Json) : Except DeErr File := do
  let kvs ← asObj j
  match firstDup kvs ["path", "hashes", "license", "attributions",
      "natures", "token"] with
  | some n => .error (.duplicateField n)
  | none => do
    let path ← reqField kvs "path" decodeString
    let hashes ← optField kvs "hashes" decodeHashes
    let license ← optField kvs "license" decodeString
    let attributions ← defaultField kvs "attributions" (decodeVec decodeString) []
    let natures ← defaultField kvs "natures" (decodeVec decodeString) []
    let token ← optField kvs "token" decodeString
    pure (File.mk path hashes license attributions natures token)

structure TopLevelScore where
  effective : Nat
  tool : Nat
deriving DecidableEq, Repr

def decodeTopLevelScore (j : Json) : Except DeErr TopLevelScore := do
  let kvs ← asObj j
  match firstDup kvs ["effective", "tool"] with
  | some n => .error (.duplicateField n)
  | none => do
    let effective ← reqField kvs "effective" decodeU8
    let tool ← reqField kvs "tool" decodeU8
    pure (TopLevelScore.mk effective tool)

/-- The component definition record. -/
structure Definition where
  coordinates : DefCoords
  described : Option Description
  licensed : Option License
  files : List File
  scores : TopLevelScore
deriving DecidableEq, Repr

/-- Mutable state of `Definition::deserialize`'s `visit_map` loop. -/
structure DefState where
  coordinates : Option DefCoords
  described : Option (Option Description)
  licensed : Option (Option License)
  files : List File
  scores : TopLevelScore
deriving DecidableEq, Repr

def defInit : DefState :=
  DefState.mk none none none [] (TopLevelScore.mk 0 0)

/-- One iteration of the `visit_map` loop of `Definition::deserialize`. -/
def defStep (st : DefState) (k : String) (v : Json) : Except DeErr DefState :=
  if k = "coordinates" then
    if st.coordinates.isSome then .error (.duplicateField "coordinates")
    else
      match decodeDefCoords v with
      | .ok c => .ok { st with coordinates := some c }
      | .error e => .error e
  else if k = "described" then
    if st.described.isSome then .error (.duplicateField "described")
    else .ok { st with described := some (resultOk (decodeDescription v)) }
  else if k = "licensed" then
    if st.licensed.isSome then .error (.duplicateField "licensed")
    else .ok { st with licensed := some (resultOk (decodeLicense v)) }
  else if k = "files" then
    if st.files ≠ [] then .error (.duplicateField "files")
    else
      match decodeVec decodeFile v with
      | .ok fs => .ok { st with files := fs }
      | .error e => .error e
  else if k = "scores" then
    match decodeTopLevelScore v with
    | .ok sc => .ok { st with scores := sc }
    | .error e => .error e
  else .ok st

def defLoop (st : DefState) : List (String × Json) → Except DeErr DefState
  | [] => .ok st
  | (k, v) :: rest =>
    match defStep st k v with
    | .ok st2 => defLoop st2 rest
    | .error e => .error e

/-- The checks after the `visit_map` loop. -/
def defFinish (st : DefState) : Except DeErr Definition :=
  match st.coordinates with
  | none => .error (.missingField "coordinates")
  | some coordinates =>
    match st.described with
    | none => .error (.missingField "described")
    | some described =>
      match st.licensed with
      | none => .error (.missingField "licensed")
      | some licensed =>
        .ok (Definition.mk coordinates described licensed st.files st.scores)

/-- `Definition::deserialize` over a definition object. -/
def decodeDefinition (j : Json) : Except DeErr Definition := do
  let kvs ← asObj j
  match defLoop defInit kvs with
  | .ok st => defFinish st
  | .error e => .error e

/-- Batch response: one definition per requested coordinate. -/
structure GetResponse where
  definitions : List Definition
deriving DecidableEq, Repr

/-- `TryFrom<http::Response<B>> for GetResponse`: the body is a JSON
object decoded through a `#[serde(flatten)]`-ed `BTreeMap<String,
Definition>` whose iteration order yields the definitions. -/
def getResponseFromJson (j : Json) : Except DeErr GetResponse :=
  match j with
  | .obj kvs =>
    match kvs.mapM (fun kv => (decodeDefinition kv.2).map (fun d => (kv.1, d))) with
    | .ok pairs =>
      .ok (GetResponse.mk
        ((pairs.foldl (fun acc kv => btreeInsert kv.1 kv.2 acc) []).map Prod.snd))
    | .error e => .error e
  | _ => .error (.invalidType "map")

/-! ### Coordinates, formatting and parsing -/

def ROOT_URI : String := "https://api.clearlydefined.io"

/-- Rust `Display` for unsigned integers. -/
def natToDecStr (n : Nat) : String := String.mk (natToDec n)

/-- `lib.rs`: the coordinates of a specific component.  The `namespace`
field is spelled `namespce` (the source name is a Lean keyword). -/
structure Coordinate where
  shape : Shape
  provider : Provider
  namespce : Option String
  name : String
  version : CoordVersion
  curation_pr : Option Nat
deriving DecidableEq, Repr

/-- The `Coord` trait: a record of accessor functions (`namespace` and
`curation_pr` default to `None` in the trait; an implementation is any
such record). -/
structure CoordAccessors (T : Type) where
  shape : T → Shape
  provider : T → Provider
  namespce : T → Option String
  name : T → String
  version : T → CoordVersion
  curation_pr : T → Option Nat

/-- `impl fmt::Display for CoordDisp<T>`: the five slash-separated
segments, `-` for a missing namespace, and the optional `/pr/<n>`
suffix. -/
def coordDisp {T : Type} (A : CoordAccessors T) (t : T) : String :=
  (A.shape t).as_str ++ "/" ++ (A.provider t).as_str ++ "/"
    ++ ((A.namespce t).getD "-") ++ "/" ++ A.name t ++ "/"
    ++ coordVersionDisplay (A.version t)
    ++ match A.curation_pr t with
       | some pr => "/pr/" ++ natToDecStr pr
       | none => ""

/-- Modelled from the spec: the `impl Coord for Coordinate` of the `api`
module (not part of the three library sources) returns the record's own
fields, so `format!("{}", coordinate)` renders them through the
`CoordDisp` formatter. -/
def coordinateAccessors : CoordAccessors Coordinate :=
  CoordAccessors.mk Coordinate.shape Coordinate.provider Coordinate.namespce
    Coordinate.name Coordinate.version Coordinate.curation_pr

def coordinateDisplay (c : Coordinate) : String :=
  coordDisp coordinateAccessors c

/-- Modelled from Rust `u32::from_str` on digit text: all characters are
digits (leading zeros permitted) and the value fits in 32 bits. -/
def parseU32Chars (cs : List Char) : Option Nat :=
  if cs ≠ [] ∧ cs.all Char.isDigit ∧ digitsToNat cs < 4294967296 then
    some (digitsToNat cs)
  else none

/-- Modelled from Rust `u32::from_str`, which also accepts a leading
plus sign. -/
def parseU32 (s : String) : Option Nat :=
  parseU32Chars (if s.data.head? = some '+' then s.data.tail else s.data)

/-- Errors of coordinate-text parsing, one per failing positional
segment. -/
inductive CoordParseErr where
  | missingShape : CoordParseErr
  | missingProvider : CoordParseErr
  | missingNamespace : CoordParseErr
  | missingName : CoordParseErr
  | missingVersion : CoordParseErr
  | badShape : String → CoordParseErr
  | badProvider : String → CoordParseErr
  | badPrNumber : String → CoordParseErr
  | unexpectedSegment : String → CoordParseErr
deriving DecidableEq, Repr

/-- Modelled from the spec: coordinate-text parsing (the parser lives in
the `api` module, which is not among the three library sources).
Segments are split on `/`; the third segment `-` denotes a missing
namespace; an optional `pr/<u32>` pair may follow the version; a
non-`pr` sixth segment or an eighth segment is an error. -/
def parseCoordSegs (segs : List (List Char)) : Except CoordParseErr Coordinate :=
  match segs with
  | [] => .error .missingShape
  | [_] => .error .missingProvider
  | [_, _] => .error .missingNamespace
  | [_, _, _] => .error .missingName
  | [_, _, _, _] => .error .missingVersion
  | s0 :: s1 :: s2 :: s3 :: s4 :: rest =>
    match shapeFromStr (String.mk s0) with
    | .error _ => .error (.badShape (String.mk s0))
    | .ok shape =>
      match providerFromStr (String.mk s1) with
      | .error _ => .error (.badProvider (String.mk s1))
      | .ok provider =>
        match rest with
        | [] =>
          .ok (Coordinate.mk shape provider
            (if s2 = ['-'] then none else some (String.mk s2))
            (String.mk s3) (coordVersionFromStr (String.mk s4)) none)
        | [p] =>
          if p = ['p', 'r'] then .error (.badPrNumber "")
          else .error (.unexpectedSegment (String.mk p))
        | [p, nstr] =>
          if p = ['p', 'r'] then
            match parseU32Chars nstr with
            | some n =>
              .ok (Coordinate.mk shape provider
                (if s2 = ['-'] then none else some (String.mk s2))
                (String.mk s3) (coordVersionFromStr (String.mk s4)) (some n))
            | none => .error (.badPrNumber (String.mk nstr))
          else .error (.unexpectedSegment (String.mk p))
        | p :: _ :: extra :: _ =>
          if p = ['p', 'r'] then .error (.unexpectedSegment (String.mk extra))
          else .error (.unexpectedSegment (String.mk p))

def parseCoordinate (text : String) : Except CoordParseErr Coordinate :=
  parseCoordSegs (splitOnChar '/' text.data)

/-- Modelled from the spec: the descriptive-error contract of coordinate
parsing — each parse error must correctly identify the failing
positional segment of the slash-split input (a missing segment at the
reported position, the offending shape/provider segment text embedded in
the error, the unparseable PR-number segment, or the unexpected trailing
segment). Compared against the errors `parseCoordSegs` actually
returns. -/
def coordErrDescribes (segs : List (List Char)) : CoordParseErr → Prop
  | .missingShape => segs = []
  | .missingProvider => segs.length = 1
  | .missingNamespace => segs.length = 2
  | .missingName => segs.length = 3
  | .missingVersion => segs.length = 4
  | .badShape s => 5 ≤ segs.length ∧ segs.head? = some s.data ∧
      shapeFromStr s = .error (.other ("unknown shape '" ++ s ++ "'"))
  | .badProvider s => 5 ≤ segs.length ∧ segs.get? 1 = some s.data ∧
      providerFromStr s = .error (.other ("unknown provider '" ++ s ++ "'"))
  | .badPrNumber s =>
      (segs.length = 6 ∧ segs.get? 5 = some ['p', 'r'] ∧ s = "") ∨
      (segs.length = 7 ∧ segs.get? 5 = some ['p', 'r'] ∧
        segs.get? 6 = some s.data ∧ parseU32Chars s.data = none)
  | .unexpectedSegment s =>
      (6 ≤ segs.length ∧ segs.get? 5 = some s.data ∧ s.data ≠ ['p', 'r']) ∨
      (8 ≤ segs.length ∧ segs.get? 5 = some ['p', 'r'] ∧
        segs.get? 7 = some s.data)

/-! ### Batch request builder and response handling -/

structure HttpRequest where
  method : String
  uri : String
  headers : List (String × String)
  body : Json

/-- The accumulation loop of `definitions::get`: push each formatted
coordinate, flush a chunk whenever the buffer reaches the chunk size,
and flush the non-empty remainder at the end. -/
def chunkLoop {α : Type} (cs : Nat) : List α → List α → List (List α)
  | buf, [] => if buf.isEmpty then [] else [buf]
  | buf, x :: rest =>
    if (buf ++ [x]).length = cs then (buf ++ [x]) :: chunkLoop cs [] rest
    else chunkLoop cs (buf ++ [x]) rest

/-- `definitions::get`: chunk the formatted coordinates by
`min(chunk_size, 1000)` and build one POST request per chunk. -/
def get (chunk_size : Nat) (coordinates : List Coordinate) : List HttpRequest :=
  (chunkLoop (min chunk_size 1000) []
      (coordinates.map (fun c => Json.str (coordinateDisplay c)))).map
    (fun req => HttpRequest.mk "POST" (ROOT_URI ++ "/definitions")
      [("content-type", "application/json"), ("accept", "application/json")]
      (Json.arr req))

/-- An HTTP response, reduced to the parts the library inspects. -/
structure HttpResponse (B : Type) where
  status : Nat
  body : B

/-- `http::StatusCode::is_success`: the 2xx range. -/
def isSuccess (status : Nat) : Bool := 200 ≤ status && status < 300

/-- `ApiResponse::try_from_parts`: decode the body on success, otherwise
fail with the status code (the upstream service has no structured error
payloads). -/
def tryFromParts {B R : Type} (tryFrom : HttpResponse B → Except Error R)
    (resp : HttpResponse B) : Except Error R :=
  if isSuccess resp.status then tryFrom resp
  else .error (.httpStatus resp.status)

/-- The `TryFrom` impl of `GetResponse` over an already-lexed JSON body:
decode per the tolerant algorithm, wrapping failures in `Error::Json`. -/
def getResponseTryFrom (resp : HttpResponse Json) : Except Error GetResponse :=
  match getResponseFromJson resp.body with
  | .ok r => .ok r
  | .error e => .error (.json e)

/-! ### Claim theorems -/

/-- Claim C7: parsing a `Shape` or `Provider` succeeds exactly on a
case-sensitive match of the canonical lowercase identifier of one of the
variants; every other string fails with an error embedding the offending
input text in its message. -/
theorem c7_shape_provider_from_str (s : String) :
    (shapeFromStr s = .ok .crate ↔ s = "crate") ∧
    (shapeFromStr s = .ok .git ↔ s = "git") ∧
    (s ≠ "crate" → s ≠ "git" →
      shapeFromStr s = .error (.other ("unknown shape '" ++ s ++ "'"))) ∧
    (providerFromStr s = .ok .cratesio ↔ s = "cratesio") ∧
    (providerFromStr s = .ok .github ↔ s = "github") ∧
    (s ≠ "cratesio" → s ≠ "github" →
      providerFromStr s = .error (.other ("unknown provider '" ++ s ++ "'"))) := by
  unfold shapeFromStr providerFromStr
  refine ⟨?_, ?_, ?_, ?_, ?_, ?_⟩
  · by_cases h1 : s = "crate" <;> by_cases h2 : s = "git" <;> simp_all
  · by_cases h1 : s = "crate" <;> by_cases h2 : s = "git" <;> simp_all
  · intro h1 h2
    rw [if_neg h1, if_neg h2]
  · by_cases h1 : s = "cratesio" <;> by_cases h2 : s = "github" <;> simp_all
  · by_cases h1 : s = "cratesio" <;> by_cases h2 : s = "github" <;> simp_all
  · intro h1 h2
    rw [if_neg h1, if_neg h2]

theorem c7_shape_provider_from_str_witness :
    shapeFromStr "Crate" = .error (.other "unknown shape 'Crate'") ∧
    providerFromStr "crates.io" =
      .error (.other "unknown provider 'crates.io'") ∧
    shapeFromStr "git" = .ok .git := by
  refine ⟨?_, ?_, ?_⟩
  · exact (c7_shape_provider_from_str "Crate").2.2.1 (by decide) (by decide)
  · exact (c7_shape_provider_from_str "crates.io").2.2.2.2.2 (by decide) (by decide)
  · exact (c7_shape_provider_from_str "git").2.1.mpr rfl

/-- Claim C8: for every implementation of the `Coord` interface the
formatted text is `shape/provider/namespace/name/version`, rendering a
missing namespace as `-`, with the `/pr/<number>` suffix appended if and
only if a curation PR is present. -/
theorem c8_coord_display {T : Type} (A : CoordAccessors T) (t : T) :
    (A.curation_pr t = none →
      coordDisp A t = (A.shape t).as_str ++ "/" ++ (A.provider t).as_str ++ "/"
        ++ ((A.namespce t).getD "-") ++ "/" ++ A.name t ++ "/"
        ++ coordVersionDisplay (A.version t)) ∧
    (∀ n, A.curation_pr t = some n →
      coordDisp A t = (A.shape t).as_str ++ "/" ++ (A.provider t).as_str ++ "/"
        ++ ((A.namespce t).getD "-") ++ "/" ++ A.name t ++ "/"
        ++ coordVersionDisplay (A.version t) ++ "/pr/" ++ natToDecStr n) ∧
    (A.namespce t = none → (A.namespce t).getD "-" = "-") ∧
    (∀ ns, A.namespce t = some ns → (A.namespce t).getD "-" = ns) := by
  refine ⟨?_, ?_, ?_, ?_⟩
  · intro h
    unfold coordDisp
    rw [h]
    simp [String.append_assoc]
  · intro n h
    unfold coordDisp
    rw [h]
    simp [String.append_assoc]
  · intro h
    rw [h]
    rfl
  · intro ns h
    rw [h]
    rfl

def c8WitnessAcc : CoordAccessors Unit :=
  CoordAccessors.mk (fun _ => .crate) (fun _ => .cratesio) (fun _ => none)
    (fun _ => "syn") (fun _ => .Any "1.0.14") (fun _ => some 42)

theorem c8_coord_display_witness :
    coordDisp c8WitnessAcc () = "crate/cratesio/-/syn/1.0.14/pr/42" := by
  have h := (c8_coord_display c8WitnessAcc ()).2.1 42 rfl
  rw [h]
  decide

/-- Claim C4: parsing any string as a `CoordVersion` succeeds; strings
accepted by the semantic-version grammar become the strict variant,
whose display is the canonical rendering and reproduces the input; all
other strings become the opaque variant displaying byte-for-byte the
input. -/
theorem c4_coord_version_total (s : String) :
    (∀ v, semverParse s = some v →
      coordVersionFromStr s = .Version v ∧
      coordVersionDisplay (.Version v) = renderSemver v ∧
      renderSemver v = s) ∧
    (semverParse s = none →
      coordVersionFromStr s = .Any s ∧ coordVersionDisplay (.Any s) = s) := by
  constructor
  · intro v h
    unfold coordVersionFromStr
    rw [h]
    exact ⟨rfl, rfl, renderSemver_parse s v h⟩
  · intro h
    unfold coordVersionFromStr
    rw [h]
    exact ⟨rfl, rfl⟩

theorem c4_coord_version_total_witness :
    coordVersionFromStr "1.0.14" = .Version (SemVer.mk 1 0 14 [] []) ∧
    renderSemver (SemVer.mk 1 0 14 [] []) = "1.0.14" ∧
    coordVersionFromStr "not semver" = .Any "not semver" ∧
    coordVersionDisplay (.Any "not semver") = "not semver" := by
  have h1 := (c4_coord_version_total "1.0.14").1 (SemVer.mk 1 0 14 [] [])
    (by decide)
  have h2 := (c4_coord_version_total "not semver").2 (by decide)
  exact ⟨h1.1, h1.2.2, h2.1, h2.2⟩

/-- Claim C6: a success status decodes the body per the tolerant
deserialization algorithm; a non-success status yields the status-code
error kind carrying that status, for any body whatsoever (the body is
never decoded). -/
theorem c6_response_status (resp : HttpResponse Json) :
    (isSuccess resp.status = true →
      tryFromParts getResponseTryFrom resp =
        match getResponseFromJson resp.body with
        | .ok r => .ok r
        | .error e => .error (.json e)) ∧
    (isSuccess resp.status = false → ∀ body2 : Json,
      tryFromParts getResponseTryFrom (HttpResponse.mk resp.status body2) =
        .error (.httpStatus resp.status)) := by
  constructor
  · intro h
    unfold tryFromParts
    rw [if_pos h]
    rfl
  · intro h body2
    unfold tryFromParts
    simp only [h]
    rw [if_neg (by simp [h])]

theorem c6_response_status_witness :
    tryFromParts getResponseTryFrom (HttpResponse.mk 200 (Json.obj [])) =
      .ok (GetResponse.mk []) ∧
    tryFromParts getResponseTryFrom (HttpResponse.mk 404 (Json.obj [])) =
      .error (.httpStatus 404) := by
  constructor
  · have h := (c6_response_status (HttpResponse.mk 200 (Json.obj []))).1 rfl
    rw [h]
    rfl
  · exact (c6_response_status (HttpResponse.mk 404 (Json.obj []))).2 rfl
      (Json.obj [])

/-! ### Chunking lemmas -/

theorem chunkLoop_spec {α : Type} (cs : Nat) (hcs : 1 ≤ cs) :
    ∀ (l buf : List α), buf.length < cs →
      (chunkLoop cs buf l).flatten = buf ++ l ∧
      (chunkLoop cs buf l).map List.length =
        List.replicate ((buf.length + l.length) / cs) cs ++
          (if (buf.length + l.length) % cs = 0 then []
           else [(buf.length + l.length) % cs]) := by
  intro l
  induction l with
  | nil =>
    intro buf hbuf
    unfold chunkLoop
    cases hb : buf with
    | nil => simp
    | cons y ys =>
      simp only [List.isEmpty_cons, if_false]
      constructor
      · simp
      · have hlen : (y :: ys).length < cs := by rw [← hb]; exact hbuf
        have hz : (y :: ys).length ≠ 0 := by simp
        rw [Nat.div_eq_of_lt (by simpa using hlen), Nat.mod_eq_of_lt (by simpa using hlen)]
        simp only [List.length_nil, Nat.add_zero] at *
        rw [if_neg (by simpa using hz)]
        simp
  | cons x rest ih =>
    intro buf hbuf
    unfold chunkLoop
    by_cases h : (buf ++ [x]).length = cs
    · rw [if_pos h]
      obtain ⟨ihj, ihl⟩ := ih [] (by simp only [List.length_nil]; omega)
      constructor
      · simp only [List.flatten_cons, ihj]
        simp
      · simp only [List.map_cons, ihl, List.length_nil, Nat.zero_add]
        have harith : buf.length + (x :: rest).length = rest.length + cs := by
          simp only [List.length_append, List.length_cons, List.length_nil] at h ⊢
          omega
        rw [harith, Nat.add_div_right _ (by omega), Nat.add_mod_right,
          List.replicate_succ, h, List.cons_append]
    · rw [if_neg h]
      have hlt : (buf ++ [x]).length < cs := by
        have : (buf ++ [x]).length = buf.length + 1 := by simp
        omega
      obtain ⟨ihj, ihl⟩ := ih (buf ++ [x]) hlt
      constructor
      · rw [ihj]
        simp
      · rw [ihl]
        have harith : (buf ++ [x]).length + rest.length
            = buf.length + (x :: rest).length := by
          simp
          omega
        rw [harith]

theorem chunkLoop_zero {α : Type} :
    ∀ (l buf : List α), chunkLoop 0 buf l =
      if (buf ++ l).isEmpty then [] else [buf ++ l] := by
  intro l
  induction l with
  | nil =>
    intro buf
    rw [List.append_nil]
    rfl
  | cons x rest ih =>
    intro buf
    unfold chunkLoop
    rw [if_neg (by simp)]
    rw [ih (buf ++ [x])]
    have hne : ((buf ++ [x]) ++ rest).isEmpty = false := by simp
    have hne2 : (buf ++ x :: rest).isEmpty = false := by simp
    rw [hne, hne2]
    simp

/-- Ceiling division, expressed through floor division and remainder. -/
theorem div_succ_eq_ceil (N m : Nat) (hm : 1 ≤ m) :
    N / m + (if N % m = 0 then 0 else 1) = (N + m - 1) / m := by
  by_cases hr : N % m = 0
  · rw [if_pos hr, Nat.add_zero]
    obtain ⟨q, hq⟩ : ∃ q, N = m * q := by
      refine ⟨N / m, ?_⟩
      have h3 := Nat.div_add_mod N m
      rw [hr, Nat.add_zero] at h3
      exact h3.symm
    subst hq
    rw [Nat.mul_div_cancel_left _ (by omega), Nat.add_sub_assoc hm,
      Nat.mul_add_div (by omega),
      Nat.div_eq_of_lt (show m - 1 < m by omega), Nat.add_zero]
  · rw [if_neg hr]
    have h3 := Nat.div_add_mod N m
    have hrlt : N % m < m := Nat.mod_lt _ (by omega)
    have hnum : N + m - 1 = m * (N / m + 1) + (N % m - 1) := by
      have hexp : m * (N / m + 1) = m * (N / m) + m := by ring
      generalize hP : m * (N / m) = P at h3 hexp
      generalize hP2 : m * (N / m + 1) = P2 at hexp ⊢
      omega
    rw [hnum, Nat.mul_add_div (by omega),
      Nat.div_eq_of_lt (show N % m - 1 < m by omega), Nat.add_zero]

/-- Claim C2 (amended: the requested chunk size is at least 1; the
original claim's payload-count formula is meaningless at chunk size 0,
see the counterexample): for chunk size `C ≥ 1` and `N` coordinates the
builder emits `ceil(N / min(C,1000))` POST requests to the definitions
endpoint with JSON headers, every payload is a JSON array of
`min(C,1000)` coordinate text strings except possibly the last partial
one, and the concatenation of all payloads in order is the formatted
input sequence in its original order. -/
theorem c2_chunking (chunk_size : Nat) (coords : List Coordinate)
    (hcs : 1 ≤ chunk_size) :
    (get chunk_size coords).length
        = (coords.length + min chunk_size 1000 - 1) / min chunk_size 1000 ∧
    (∃ chunks : List (List Json),
      (get chunk_size coords).map HttpRequest.body
          = chunks.map (fun ch => Json.arr ch) ∧
      chunks.map List.length
          = List.replicate (coords.length / min chunk_size 1000)
              (min chunk_size 1000) ++
            (if coords.length % min chunk_size 1000 = 0 then []
             else [coords.length % min chunk_size 1000]) ∧
      chunks.flatten = coords.map (fun c => Json.str (coordinateDisplay c))) ∧
    (∀ r ∈ get chunk_size coords,
      r.method = "POST" ∧ r.uri = ROOT_URI ++ "/definitions" ∧
      r.headers = [("content-type", "application/json"),
        ("accept", "application/json")]) := by
  have hm : 1 ≤ min chunk_size 1000 := le_min hcs (by omega)
  obtain ⟨hjoin, hlens⟩ := chunkLoop_spec (min chunk_size 1000) hm
    (coords.map (fun c => Json.str (coordinateDisplay c))) []
    (by simp only [List.length_nil]; omega)
  simp only [List.length_nil, Nat.zero_add, List.nil_append,
    List.length_map] at hjoin hlens
  refine ⟨?_, ⟨chunkLoop (min chunk_size 1000) []
      (coords.map (fun c => Json.str (coordinateDisplay c))), ?_, hlens, hjoin⟩, ?_⟩
  · unfold get
    rw [List.length_map]
    have hlen : (chunkLoop (min chunk_size 1000) []
        (coords.map (fun c => Json.str (coordinateDisplay c)))).length
        = coords.length / min chunk_size 1000
          + (if coords.length % min chunk_size 1000 = 0 then 0 else 1) := by
      have := congrArg List.length hlens
      rw [List.length_map, List.length_append, List.length_replicate] at this
      rw [this]
      by_cases hz : coords.length % min chunk_size 1000 = 0 <;> simp [hz]
    rw [hlen, div_succ_eq_ceil _ _ hm]
  · unfold get
    rw [List.map_map]
    rfl
  · intro r hr
    unfold get at hr
    rw [List.mem_map] at hr
    obtain ⟨ch, _, hch⟩ := hr
    rw [← hch]
    exact ⟨rfl, rfl, rfl⟩

def sampleCoord (nm : String) : Coordinate :=
  Coordinate.mk .crate .cratesio none nm (.Any "1.0") none

theorem c2_chunking_witness :
    (get 2 [sampleCoord "a", sampleCoord "b", sampleCoord "c"]).length = 2 := by
  have h := (c2_chunking 2 [sampleCoord "a", sampleCoord "b", sampleCoord "c"]
    (by decide)).1
  rw [h]
  decide

/-- The chunking claim fails at requested chunk size 0: one request is
emitted for a single coordinate, while the `ceil(N / min(C,1000))`
formula evaluates to 0. -/
theorem c2_chunking_counterexample :
    (get 0 [sampleCoord "a"]).length = 1 ∧
    (List.length [sampleCoord "a"] + min 0 1000 - 1) / min 0 1000 = 0 := by
  constructor
  · rfl
  · decide

/-- Claim C10: with requested chunk size 0 and a non-empty coordinate
sequence, exactly one request is emitted and its body carries all the
formatted coordinates. -/
theorem c10_chunk_size_zero (coords : List Coordinate) (hne : coords ≠ []) :
    get 0 coords = [HttpRequest.mk "POST" (ROOT_URI ++ "/definitions")
      [("content-type", "application/json"), ("accept", "application/json")]
      (Json.arr (coords.map (fun c => Json.str (coordinateDisplay c))))] := by
  unfold get
  rw [Nat.zero_min, chunkLoop_zero]
  rw [List.nil_append]
  have hne2 : (coords.map (fun c => Json.str (coordinateDisplay c))).isEmpty
      = false := by
    simp [hne]
  rw [hne2]
  rfl

theorem c10_chunk_size_zero_witness :
    get 0 (List.replicate 1001 (sampleCoord "a"))
      = [HttpRequest.mk "POST" (ROOT_URI ++ "/definitions")
        [("content-type", "application/json"), ("accept", "application/json")]
        (Json.arr ((List.replicate 1001 (sampleCoord "a")).map
          (fun c => Json.str (coordinateDisplay c))))] :=
  c10_chunk_size_zero (List.replicate 1001 (sampleCoord "a")) (by decide)

/-! ### Properties of the `Definition` visitor loop -/

/-- Complete case analysis of one successful `visit_map` iteration. -/
theorem defStep_cases (st : DefState) (k : String) (v : Json) (st2 : DefState)
    (h : defStep st k v = .ok st2) :
    (k = "coordinates" ∧ st.coordinates = none ∧
      (∃ c, decodeDefCoords v = .ok c ∧ st2 = { st with coordinates := some c })) ∨
    (k = "described" ∧ st.described = none ∧
      st2 = { st with described := some (resultOk (decodeDescription v)) }) ∨
    (k = "licensed" ∧ st.licensed = none ∧
      st2 = { st with licensed := some (resultOk (decodeLicense v)) }) ∨
    (k = "files" ∧ st.files = [] ∧
      (∃ fs, decodeVec decodeFile v = .ok fs ∧ st2 = { st with files := fs })) ∨
    (k = "scores" ∧
      (∃ sc, decodeTopLevelScore v = .ok sc ∧ st2 = { st with scores := sc })) ∨
    (k ≠ "coordinates" ∧ k ≠ "described" ∧ k ≠ "licensed" ∧ k ≠ "files" ∧
      k ≠ "scores" ∧ st2 = st) := by
  unfold defStep at h
  by_cases h1 : k = "coordinates"
  · rw [if_pos h1] at h
    by_cases hs : st.coordinates.isSome
    · rw [if_pos hs] at h
      exact absurd h (by simp)
    · rw [if_neg hs] at h
      cases hc : decodeDefCoords v with
      | ok c =>
        rw [hc] at h
        simp only [Except.ok.injEq] at h
        exact Or.inl ⟨h1, Option.not_isSome_iff_eq_none.mp hs, c, rfl, h.symm⟩
      | error e =>
        rw [hc] at h
        exact absurd h (by simp)
  · rw [if_neg h1] at h
    by_cases h2 : k = "described"
    · rw [if_pos h2] at h
      by_cases hs : st.described.isSome
      · rw [if_pos hs] at h
        exact absurd h (by simp)
      · rw [if_neg hs] at h
        simp only [Except.ok.injEq] at h
        exact Or.inr (Or.inl ⟨h2, Option.not_isSome_iff_eq_none.mp hs, h.symm⟩)
    · rw [if_neg h2] at h
      by_cases h3 : k = "licensed"
      · rw [if_pos h3] at h
        by_cases hs : st.licensed.isSome
        · rw [if_pos hs] at h
          exact absurd h (by simp)
        · rw [if_neg hs] at h
          simp only [Except.ok.injEq] at h
          exact Or.inr (Or.inr (Or.inl
            ⟨h3, Option.not_isSome_iff_eq_none.mp hs, h.symm⟩))
      · rw [if_neg h3] at h
        by_cases h4 : k = "files"
        · rw [if_pos h4] at h
          by_cases hs : st.files ≠ []
          · rw [if_pos hs] at h
            exact absurd h (by simp)
          · rw [if_neg hs] at h
            cases hc : decodeVec decodeFile v with
            | ok fs =>
              rw [hc] at h
              simp only [Except.ok.injEq] at h
              exact Or.inr (Or.inr (Or.inr (Or.inl
                ⟨h4, not_not.mp hs, fs, rfl, h.symm⟩)))
            | error e =>
              rw [hc] at h
              exact absurd h (by simp)
        · rw [if_neg h4] at h
          by_cases h5 : k = "scores"
          · rw [if_pos h5] at h
            cases hc : decodeTopLevelScore v with
            | ok sc =>
              rw [hc] at h
              simp only [Except.ok.injEq] at h
              exact Or.inr (Or.inr (Or.inr (Or.inr (Or.inl
                ⟨h5, sc, rfl, h.symm⟩))))
            | error e =>
              rw [hc] at h
              exact absurd h (by simp)
          · rw [if_neg h5] at h
            simp only [Except.ok.injEq] at h
            exact Or.inr (Or.inr (Or.inr (Or.inr (Or.inr
              ⟨h1, h2, h3, h4, h5, h.symm⟩))))

theorem defLoop_append (l1 l2 : List (String × Json)) (st : DefState) :
    defLoop st (l1 ++ l2) =
      match defLoop st l1 with
      | .ok st2 => defLoop st2 l2
      | .error e => .error e := by
  induction l1 generalizing st with
  | nil => rfl
  | cons kv rest ih =>
    obtain ⟨k, v⟩ := kv
    simp only [List.cons_append, defLoop]
    cases defStep st k v with
    | ok st2 => exact ih st2
    | error e => rfl

/-- A set `described` slot survives the rest of the loop unchanged. -/
theorem defLoop_described_some (l : List (String × Json)) (st st2 : DefState)
    (d : Option Description) (h : defLoop st l = .ok st2)
    (hd : st.described = some d) : st2.described = some d := by
  induction l generalizing st with
  | nil =>
    simp only [defLoop, Except.ok.injEq] at h
    rw [← h]
    exact hd
  | cons kv rest ih =>
    obtain ⟨k, v⟩ := kv
    simp only [defLoop] at h
    cases hs : defStep st k v with
    | error e => rw [hs] at h; exact absurd h (by simp)
    | ok stm =>
      rw [hs] at h
      rcases defStep_cases st k v stm hs with
        ⟨_, _, c, _, he⟩ | ⟨_, hn, he⟩ | ⟨_, _, he⟩ | ⟨_, _, fs, _, he⟩
        | ⟨_, sc, _, he⟩ | ⟨_, _, _, _, _, he⟩
      · exact ih stm h (by rw [he]; simpa using hd)
      · rw [hn] at hd
        exact absurd hd (by simp)
      · exact ih stm h (by rw [he]; simpa using hd)
      · exact ih stm h (by rw [he]; simpa using hd)
      · exact ih stm h (by rw [he]; simpa using hd)
      · exact ih stm h (by rw [he]; simpa using hd)

/-- A set `licensed` slot survives the rest of the loop unchanged. -/
theorem defLoop_licensed_some (l : List (String × Json)) (st st2 : DefState)
    (d : Option License) (h : defLoop st l = .ok st2)
    (hd : st.licensed = some d) : st2.licensed = some d := by
  induction l generalizing st with
  | nil =>
    simp only [defLoop, Except.ok.injEq] at h
    rw [← h]
    exact hd
  | cons kv rest ih =>
    obtain ⟨k, v⟩ := kv
    simp only [defLoop] at h
    cases hs : defStep st k v with
    | error e => rw [hs] at h; exact absurd h (by simp)
    | ok stm =>
      rw [hs] at h
      rcases defStep_cases st k v stm hs with
        ⟨_, _, c, _, he⟩ | ⟨_, _, he⟩ | ⟨_, hn, he⟩ | ⟨_, _, fs, _, he⟩
        | ⟨_, sc, _, he⟩ | ⟨_, _, _, _, _, he⟩
      · exact ih stm h (by rw [he]; simpa using hd)
      · exact ih stm h (by rw [he]; simpa using hd)
      · rw [hn] at hd
        exact absurd hd (by simp)
      · exact ih stm h (by rw [he]; simpa using hd)
      · exact ih stm h (by rw [he]; simpa using hd)
      · exact ih stm h (by rw [he]; simpa using hd)

/-- A set `coordinates` slot survives the rest of the loop unchanged. -/
theorem defLoop_coordinates_some (l : List (String × Json)) (st st2 : DefState)
    (d : DefCoords) (h : defLoop st l = .ok st2)
    (hd : st.coordinates = some d) : st2.coordinates = some d := by
  induction l generalizing st with
  | nil =>
    simp only [defLoop, Except.ok.injEq] at h
    rw [← h]
    exact hd
  | cons kv rest ih =>
    obtain ⟨k, v⟩ := kv
    simp only [defLoop] at h
    cases hs : defStep st k v with
    | error e => rw [hs] at h; exact absurd h (by simp)
    | ok stm =>
      rw [hs] at h
      rcases defStep_cases st k v stm hs with
        ⟨_, hn, c, _, he⟩ | ⟨_, _, he⟩ | ⟨_, _, he⟩ | ⟨_, _, fs, _, he⟩
        | ⟨_, sc, _, he⟩ | ⟨_, _, _, _, _, he⟩
      · rw [hn] at hd
        exact absurd hd (by simp)
      · exact ih stm h (by rw [he]; simpa using hd)
      · exact ih stm h (by rw [he]; simpa using hd)
      · exact ih stm h (by rw [he]; simpa using hd)
      · exact ih stm h (by rw [he]; simpa using hd)
      · exact ih stm h (by rw [he]; simpa using hd)

/-- If the loop never sees a `described` key, the slot is unchanged. -/
theorem defLoop_described_not_mem (l : List (String × Json)) (st st2 : DefState)
    (h : defLoop st l = .ok st2) (hk : "described" ∉ l.map Prod.fst) :
    st2.described = st.described := by
  induction l generalizing st with
  | nil =>
    simp only [defLoop, Except.ok.injEq] at h
    rw [← h]
  | cons kv rest ih =>
    obtain ⟨k, v⟩ := kv
    simp only [defLoop] at h
    have hkd : k ≠ "described" := by
      intro hkk
      exact hk (by simp [hkk])
    have hrest : "described" ∉ rest.map Prod.fst := by
      intro hm
      exact hk (by simp [hm])
    cases hs : defStep st k v with
    | error e => rw [hs] at h; exact absurd h (by simp)
    | ok stm =>
      rw [hs] at h
      rcases defStep_cases st k v stm hs with
        ⟨_, _, c, _, he⟩ | ⟨hkk, _, he⟩ | ⟨_, _, he⟩ | ⟨_, _, fs, _, he⟩
        | ⟨_, sc, _, he⟩ | ⟨_, _, _, _, _, he⟩
      · rw [ih stm h hrest, he]
      · exact absurd hkk hkd
      · rw [ih stm h hrest, he]
      · rw [ih stm h hrest, he]
      · rw [ih stm h hrest, he]
      · rw [ih stm h hrest, he]

/-- If the loop never sees a `licensed` key, the slot is unchanged. -/
theorem defLoop_licensed_not_mem (l : List (String × Json)) (st st2 : DefState)
    (h : defLoop st l = .ok st2) (hk : "licensed" ∉ l.map Prod.fst) :
    st2.licensed = st.licensed := by
  induction l generalizing st with
  | nil =>
    simp only [defLoop, Except.ok.injEq] at h
    rw [← h]
  | cons kv rest ih =>
    obtain ⟨k, v⟩ := kv
    simp only [defLoop] at h
    have hkd : k ≠ "licensed" := by
      intro hkk
      exact hk (by simp [hkk])
    have hrest : "licensed" ∉ rest.map Prod.fst := by
      intro hm
      exact hk (by simp [hm])
    cases hs : defStep st k v with
    | error e => rw [hs] at h; exact absurd h (by simp)
    | ok stm =>
      rw [hs] at h
      rcases defStep_cases st k v stm hs with
        ⟨_, _, c, _, he⟩ | ⟨_, _, he⟩ | ⟨hkk, _, he⟩ | ⟨_, _, fs, _, he⟩
        | ⟨_, sc, _, he⟩ | ⟨_, _, _, _, _, he⟩
      · rw [ih stm h hrest, he]
      · rw [ih stm h hrest, he]
      · exact absurd hkk hkd
      · rw [ih stm h hrest, he]
      · rw [ih stm h hrest, he]
      · rw [ih stm h hrest, he]

/-- A key among the loop's input marks its slot as filled
(for the three optional-slot keys). -/
theorem defLoop_mem_isSome (l : List (String × Json)) (st st2 : DefState)
    (h : defLoop st l = .ok st2) :
    ("coordinates" ∈ l.map Prod.fst → st2.coordinates.isSome = true) ∧
    ("described" ∈ l.map Prod.fst → st2.described.isSome = true) ∧
    ("licensed" ∈ l.map Prod.fst → st2.licensed.isSome = true) := by
  induction l generalizing st with
  | nil => exact ⟨by simp, by simp, by simp⟩
  | cons kv rest ih =>
    obtain ⟨k, v⟩ := kv
    simp only [defLoop] at h
    cases hs : defStep st k v with
    | error e => rw [hs] at h; exact absurd h (by simp)
    | ok stm =>
      rw [hs] at h
      refine ⟨?_, ?_, ?_⟩ <;> intro hk <;>
        rcases List.mem_cons.mp
          (by simpa only [List.map_cons] using hk) with hk1 | hk1
      · rcases defStep_cases st k v stm hs with
          ⟨_, _, c, _, he⟩ | ⟨hkk, _, _⟩ | ⟨hkk, _, _⟩ | ⟨hkk, _, _⟩
          | ⟨hkk, _⟩ | ⟨hkk, _, _, _, _, _⟩
        · have hc := defLoop_coordinates_some rest stm st2 c h (by rw [he])
          simp [hc]
        · rw [← hk1] at hkk
          exact absurd hkk (by decide)
        · rw [← hk1] at hkk
          exact absurd hkk (by decide)
        · rw [← hk1] at hkk
          exact absurd hkk (by decide)
        · rw [← hk1] at hkk
          exact absurd hkk (by decide)
        · exact absurd hk1.symm hkk
      · exact (ih stm h).1 hk1
      · rcases defStep_cases st k v stm hs with
          ⟨hkk, _, c, _, _⟩ | ⟨_, _, he⟩ | ⟨hkk, _, _⟩ | ⟨hkk, _, _⟩
          | ⟨hkk, _⟩ | ⟨_, hkk, _, _, _, _⟩
        · rw [← hk1] at hkk
          exact absurd hkk (by decide)
        · have hc := defLoop_described_some rest stm st2
            (resultOk (decodeDescription v)) h (by rw [he])
          simp [hc]
        · rw [← hk1] at hkk
          exact absurd hkk (by decide)
        · rw [← hk1] at hkk
          exact absurd hkk (by decide)
        · rw [← hk1] at hkk
          exact absurd hkk (by decide)
        · exact absurd hk1.symm hkk
      · exact (ih stm h).2.1 hk1
      · rcases defStep_cases st k v stm hs with
          ⟨hkk, _, c, _, _⟩ | ⟨hkk, _, _⟩ | ⟨_, _, he⟩ | ⟨hkk, _, _⟩
          | ⟨hkk, _⟩ | ⟨_, _, hkk, _, _, _⟩
        · rw [← hk1] at hkk
          exact absurd hkk (by decide)
        · rw [← hk1] at hkk
          exact absurd hkk (by decide)
        · have hc := defLoop_licensed_some rest stm st2
            (resultOk (decodeLicense v)) h (by rw [he])
          simp [hc]
        · rw [← hk1] at hkk
          exact absurd hkk (by decide)
        · rw [← hk1] at hkk
          exact absurd hkk (by decide)
        · exact absurd hk1.symm hkk
      · exact (ih stm h).2.2 hk1

theorem defStep_coordinates_eq (st : DefState) (v : Json) :
    defStep st "coordinates" v =
      if st.coordinates.isSome then .error (.duplicateField "coordinates")
      else
        match decodeDefCoords v with
        | .ok c => .ok { st with coordinates := some c }
        | .error e => .error e := rfl

theorem defStep_described_eq (st : DefState) (v : Json) :
    defStep st "described" v =
      if st.described.isSome then .error (.duplicateField "described")
      else .ok { st with described := some (resultOk (decodeDescription v)) } :=
  rfl

theorem defStep_licensed_eq (st : DefState) (v : Json) :
    defStep st "licensed" v =
      if st.licensed.isSome then .error (.duplicateField "licensed")
      else .ok { st with licensed := some (resultOk (decodeLicense v)) } := rfl

theorem defStep_files_eq (st : DefState) (v : Json) :
    defStep st "files" v =
      if st.files ≠ [] then .error (.duplicateField "files")
      else
        match decodeVec decodeFile v with
        | .ok fs => .ok { st with files := fs }
        | .error e => .error e := rfl

theorem defStep_scores_eq (st : DefState) (v : Json) :
    defStep st "scores" v =
      match decodeTopLevelScore v with
      | .ok sc => .ok { st with scores := sc }
      | .error e => .error e := rfl

theorem decodeDefinition_obj (kvs : List (String × Json)) :
    decodeDefinition (.obj kvs) =
      match defLoop defInit kvs with
      | .ok st => defFinish st
      | .error e => .error e := rfl

/-- Claim C1: in a definition object whose `coordinates` entry decodes
strictly and whose visitor loop completes, a `described` (resp.
`licensed`) entry whose value fails strict structural decode still lets
the whole `Definition` decode succeed, with that field `None`; whereas
an object whose loop completes but that lacks the `described` (resp.
`licensed`) key entirely fails with the corresponding missing-field
error. -/
theorem c1_tolerant_optional_sections :
    (∀ pre post (v : Json) (e : DeErr) (stF : DefState) (c : DefCoords)
        (lic : Option License),
      decodeDescription v = .error e →
      defLoop defInit (pre ++ ("described", v) :: post) = .ok stF →
      stF.coordinates = some c →
      stF.licensed = some lic →
      decodeDefinition (.obj (pre ++ ("described", v) :: post))
        = .ok (Definition.mk c none lic stF.files stF.scores)) ∧
    (∀ (kvs : List (String × Json)) (stF : DefState) (c : DefCoords),
      defLoop defInit kvs = .ok stF →
      stF.coordinates = some c →
      "described" ∉ kvs.map Prod.fst →
      decodeDefinition (.obj kvs) = .error (.missingField "described")) ∧
    (∀ pre post (v : Json) (e : DeErr) (stF : DefState) (c : DefCoords)
        (dsc : Option Description),
      decodeLicense v = .error e →
      defLoop defInit (pre ++ ("licensed", v) :: post) = .ok stF →
      stF.coordinates = some c →
      stF.described = some dsc →
      decodeDefinition (.obj (pre ++ ("licensed", v) :: post))
        = .ok (Definition.mk c dsc none stF.files stF.scores)) ∧
    (∀ (kvs : List (String × Json)) (stF : DefState) (c : DefCoords)
        (dsc : Option Description),
      defLoop defInit kvs = .ok stF →
      stF.coordinates = some c →
      stF.described = some dsc →
      "licensed" ∉ kvs.map Prod.fst →
      decodeDefinition (.obj kvs) = .error (.missingField "licensed")) := by
  refine ⟨?_, ?_, ?_, ?_⟩
  · intro pre post v e stF c lic hv hloop hc hlic
    have hdesc : stF.described = some none := by
      rw [defLoop_append] at hloop
      cases hpre : defLoop defInit pre with
      | error e2 =>
        rw [hpre] at hloop
        exact absurd hloop (by simp)
      | ok stA =>
        rw [hpre] at hloop
        dsimp only at hloop
        simp only [defLoop, defStep_described_eq] at hloop
        by_cases hds : stA.described.isSome
        · rw [if_pos hds] at hloop
          exact absurd hloop (by simp)
        · rw [if_neg hds] at hloop
          dsimp only at hloop
          refine defLoop_described_some post _ stF none hloop ?_
          simp [resultOk, hv]
    rw [decodeDefinition_obj, hloop]
    dsimp only
    simp only [defFinish, hc, hdesc, hlic]
  · intro kvs stF c hloop hc hmem
    have hdesc : stF.described = none := by
      have h := defLoop_described_not_mem kvs defInit stF hloop hmem
      rw [h]
      rfl
    rw [decodeDefinition_obj, hloop]
    dsimp only
    simp only [defFinish, hc, hdesc]
  · intro pre post v e stF c dsc hv hloop hc hdsc
    have hlic : stF.licensed = some none := by
      rw [defLoop_append] at hloop
      cases hpre : defLoop defInit pre with
      | error e2 =>
        rw [hpre] at hloop
        exact absurd hloop (by simp)
      | ok stA =>
        rw [hpre] at hloop
        dsimp only at hloop
        simp only [defLoop, defStep_licensed_eq] at hloop
        by_cases hds : stA.licensed.isSome
        · rw [if_pos hds] at hloop
          exact absurd hloop (by simp)
        · rw [if_neg hds] at hloop
          dsimp only at hloop
          refine defLoop_licensed_some post _ stF none hloop ?_
          simp [resultOk, hv]
    rw [decodeDefinition_obj, hloop]
    dsimp only
    simp only [defFinish, hc, hdsc, hlic]
  · intro kvs stF c dsc hloop hc hdsc hmem
    have hlic : stF.licensed = none := by
      have h := defLoop_licensed_not_mem kvs defInit stF hloop hmem
      rw [h]
      rfl
    rw [decodeDefinition_obj, hloop]
    dsimp only
    simp only [defFinish, hc, hdsc, hlic]

def wCoordJson : Json := .obj [("type", .str "crate"),
  ("provider", .str "cratesio"), ("name", .str "syn"),
  ("revision", .str "1.0.14")]

def wDefCoords : DefCoords := DefCoords.mk .crate .cratesio "syn"
  (.Version (SemVer.mk 1 0 14 [] []))

theorem c1_tolerant_optional_sections_witness :
    decodeDefinition (.obj [("coordinates", wCoordJson), ("described", .num 5),
        ("licensed", .null)])
      = .ok (Definition.mk wDefCoords none none [] (TopLevelScore.mk 0 0)) ∧
    decodeDefinition (.obj [("coordinates", wCoordJson), ("licensed", .null)])
      = .error (.missingField "described") := by
  constructor
  · exact c1_tolerant_optional_sections.1 [("coordinates", wCoordJson)]
      [("licensed", .null)] (.num 5) (.invalidType "map")
      (DefState.mk (some wDefCoords) (some none) (some none) []
        (TopLevelScore.mk 0 0)) wDefCoords none rfl rfl rfl rfl
  · exact c1_tolerant_optional_sections.2.1
      [("coordinates", wCoordJson), ("licensed", .null)]
      (DefState.mk (some wDefCoords) none (some none) []
        (TopLevelScore.mk 0 0)) wDefCoords rfl rfl (by decide)

/-- Claim C3 (amended: a second occurrence of `coordinates`, `described`
or `licensed` after a successfully processed prefix containing the same
key is a duplicate-field error; a second `files` key is an error only
when the earlier `files` value decoded to a non-empty list; a second
`scores` key is not detected at all — the handler simply overwrites the
previous value). -/
theorem c3_duplicate_fields :
    (∀ pre post (v : Json) (st1 : DefState) (k : String),
      k = "coordinates" ∨ k = "described" ∨ k = "licensed" →
      defLoop defInit pre = .ok st1 →
      k ∈ pre.map Prod.fst →
      decodeDefinition (.obj (pre ++ (k, v) :: post))
        = .error (.duplicateField k)) ∧
    (∀ pre post (v : Json) (st1 : DefState),
      defLoop defInit pre = .ok st1 →
      st1.files ≠ [] →
      decodeDefinition (.obj (pre ++ ("files", v) :: post))
        = .error (.duplicateField "files")) ∧
    (∀ (st : DefState) (v : Json),
      defStep st "scores" v =
        match decodeTopLevelScore v with
        | .ok sc => .ok { st with scores := sc }
        | .error e => .error e) := by
  refine ⟨?_, ?_, ?_⟩
  · intro pre post v st1 k hk hloop hmem
    rcases hk with rfl | rfl | rfl
    · have hsome := (defLoop_mem_isSome pre defInit st1 hloop).1 hmem
      rw [decodeDefinition_obj, defLoop_append, hloop]
      dsimp only
      simp only [defLoop, defStep_coordinates_eq, if_pos hsome]
    · have hsome := (defLoop_mem_isSome pre defInit st1 hloop).2.1 hmem
      rw [decodeDefinition_obj, defLoop_append, hloop]
      dsimp only
      simp only [defLoop, defStep_described_eq, if_pos hsome]
    · have hsome := (defLoop_mem_isSome pre defInit st1 hloop).2.2 hmem
      rw [decodeDefinition_obj, defLoop_append, hloop]
      dsimp only
      simp only [defLoop, defStep_licensed_eq, if_pos hsome]
  · intro pre post v st1 hloop hfiles
    rw [decodeDefinition_obj, defLoop_append, hloop]
    dsimp only
    simp only [defLoop, defStep_files_eq, if_pos hfiles]
  · exact defStep_scores_eq

/-- A repeated `scores` key and a repeated (empty) `files` key both pass
undetected: the definition decodes, keeping the last `scores` value. -/
theorem c3_duplicate_fields_counterexample :
    decodeDefinition (.obj [("coordinates", wCoordJson), ("described", .null),
        ("licensed", .null), ("files", .arr []), ("files", .arr []),
        ("scores", .obj [("effective", .num 1), ("tool", .num 2)]),
        ("scores", .obj [("effective", .num 3), ("tool", .num 4)])])
      = .ok (Definition.mk wDefCoords none none [] (TopLevelScore.mk 3 4)) := rfl

theorem c3_duplicate_fields_witness :
    decodeDefinition (.obj [("coordinates", wCoordJson), ("described", .null),
        ("described", .null), ("licensed", .null)])
      = .error (.duplicateField "described") :=
  c3_duplicate_fields.1 [("coordinates", wCoordJson), ("described", .null)]
    [("licensed", .null)] .null
    (DefState.mk (some wDefCoords) (some none) none [] (TopLevelScore.mk 0 0))
    "described" (Or.inr (Or.inl rfl)) rfl (by decide)


/-! ### Sortedness of the batch-response map -/

/-- Inverse of `splitOnChar`. -/
def joinSegs (c : Char) : List (List Char) → List Char
  | [] => []
  | [g] => g
  | g :: gs => g ++ c :: joinSegs c gs

theorem splitOnChar_ne_nil (c : Char) (l : List Char) :
    splitOnChar c l ≠ [] := by
  cases l with
  | nil => simp [splitOnChar]
  | cons x xs =>
    unfold splitOnChar
    cases splitOnChar c xs with
    | nil => simp
    | cons g gs =>
      by_cases h : x = c <;> simp [h]

theorem joinSegs_splitOnChar (c : Char) (l : List Char) :
    joinSegs c (splitOnChar c l) = l := by
  induction l with
  | nil => rfl
  | cons x xs ih =>
    unfold splitOnChar
    cases hs : splitOnChar c xs with
    | nil => exact absurd hs (splitOnChar_ne_nil c xs)
    | cons g gs =>
      rw [hs] at ih
      dsimp only
      by_cases h : x = c
      · rw [if_pos h]
        show [] ++ c :: joinSegs c (g :: gs) = x :: xs
        rw [List.nil_append, ih, h]
      · rw [if_neg h]
        cases gs with
        | nil =>
          show x :: g = x :: xs
          rw [show joinSegs c [g] = g from rfl] at ih
          rw [ih]
        | cons g2 gs2 =>
          show (x :: g) ++ c :: joinSegs c (g2 :: gs2) = x :: xs
          rw [show joinSegs c (g :: g2 :: gs2)
            = g ++ c :: joinSegs c (g2 :: gs2) from rfl] at ih
          rw [List.cons_append, ih]

theorem splitOnChar_notmem (c : Char) (g : List Char) (hg : c ∉ g) :
    splitOnChar c g = [g] := by
  induction g with
  | nil => rfl
  | cons x xs ih =>
    have hx : x ≠ c := fun hh => hg (by simp [hh])
    have hxs : c ∉ xs := fun hh => hg (by simp [hh])
    rw [splitOnChar, ih hxs]
    dsimp only
    rw [if_neg hx]

theorem splitOnChar_append_notmem (c : Char) (g l : List Char) (hg : c ∉ g) :
    splitOnChar c (g ++ c :: l) = g :: splitOnChar c l := by
  induction g with
  | nil =>
    show splitOnChar c (c :: l) = [] :: splitOnChar c l
    rw [splitOnChar]
    cases hs : splitOnChar c l with
    | nil => exact absurd hs (splitOnChar_ne_nil c l)
    | cons g2 gs2 =>
      dsimp only
      rw [if_pos rfl]
  | cons x xs ih =>
    have hx : x ≠ c := fun hh => hg (by simp [hh])
    have hxs : c ∉ xs := fun hh => hg (by simp [hh])
    show splitOnChar c (x :: (xs ++ c :: l)) = (x :: xs) :: splitOnChar c l
    rw [splitOnChar, ih hxs]
    dsimp only
    rw [if_neg hx]

theorem shape_as_str_fromStr (s : String) (sh : Shape)
    (h : shapeFromStr s = .ok sh) : sh.as_str = s := by
  unfold shapeFromStr at h
  by_cases h1 : s = "crate"
  · rw [if_pos h1] at h
    simp only [Except.ok.injEq] at h
    rw [← h, h1]
    rfl
  · rw [if_neg h1] at h
    by_cases h2 : s = "git"
    · rw [if_pos h2] at h
      simp only [Except.ok.injEq] at h
      rw [← h, h2]
      rfl
    · rw [if_neg h2] at h
      exact absurd h (by simp)

theorem provider_as_str_fromStr (s : String) (p : Provider)
    (h : providerFromStr s = .ok p) : p.as_str = s := by
  unfold providerFromStr at h
  by_cases h1 : s = "cratesio"
  · rw [if_pos h1] at h
    simp only [Except.ok.injEq] at h
    rw [← h, h1]
    rfl
  · rw [if_neg h1] at h
    by_cases h2 : s = "github"
    · rw [if_pos h2] at h
      simp only [Except.ok.injEq] at h
      rw [← h, h2]
      rfl
    · rw [if_neg h2] at h
      exact absurd h (by simp)

/-- Displaying a parsed `CoordVersion` reproduces the text. -/
theorem coordVersionDisplay_fromStr (s : String) :
    coordVersionDisplay (coordVersionFromStr s) = s := by
  unfold coordVersionFromStr
  cases hp : semverParse s with
  | some v => exact renderSemver_parse s v hp
  | none => rfl

theorem shapeFromStr_as_str (sh : Shape) : shapeFromStr sh.as_str = .ok sh := by
  cases sh <;> rfl

theorem providerFromStr_as_str (p : Provider) :
    providerFromStr p.as_str = .ok p := by
  cases p <;> rfl

theorem mk_data (s : String) : String.mk s.data = s := rfl

theorem parseCoordSegs_ok (segs : List (List Char)) (c : Coordinate)
    (h : parseCoordSegs segs = .ok c) :
    ∃ s0 s1 s2 s3 s4,
      shapeFromStr (String.mk s0) = .ok c.shape ∧
      providerFromStr (String.mk s1) = .ok c.provider ∧
      c.namespce = (if s2 = ['-'] then none else some (String.mk s2)) ∧
      c.name = String.mk s3 ∧
      c.version = coordVersionFromStr (String.mk s4) ∧
      ((segs = [s0, s1, s2, s3, s4] ∧ c.curation_pr = none) ∨
        (∃ n nstr, segs = [s0, s1, s2, s3, s4, ['p', 'r'], nstr] ∧
          parseU32Chars nstr = some n ∧ c.curation_pr = some n)) := by
  match segs with
  | [] => exact absurd h (by simp [parseCoordSegs])
  | [_] => exact absurd h (by simp [parseCoordSegs])
  | [_, _] => exact absurd h (by simp [parseCoordSegs])
  | [_, _, _] => exact absurd h (by simp [parseCoordSegs])
  | [_, _, _, _] => exact absurd h (by simp [parseCoordSegs])
  | s0 :: s1 :: s2 :: s3 :: s4 :: rest =>
    unfold parseCoordSegs at h
    dsimp only at h
    cases hsh : shapeFromStr (String.mk s0) with
    | error e =>
      rw [hsh] at h
      exact absurd h (by simp)
    | ok shape =>
      rw [hsh] at h
      dsimp only at h
      cases hpv : providerFromStr (String.mk s1) with
      | error e =>
        rw [hpv] at h
        exact absurd h (by simp)
      | ok provider =>
        rw [hpv] at h
        dsimp only at h
        match rest with
        | [] =>
          have hc : Coordinate.mk shape provider
              (if s2 = ['-'] then none else some (String.mk s2))
              (String.mk s3) (coordVersionFromStr (String.mk s4)) none = c := by
            simpa using h
          subst hc
          exact ⟨s0, s1, s2, s3, s4, hsh, hpv, rfl, rfl, rfl,
            Or.inl ⟨rfl, rfl⟩⟩
        | [p] =>
          dsimp only at h
          by_cases hp : p = ['p', 'r']
          · rw [if_pos hp] at h
            exact absurd h (by simp)
          · rw [if_neg hp] at h
            exact absurd h (by simp)
        | [p, nstr] =>
          dsimp only at h
          by_cases hp : p = ['p', 'r']
          · rw [if_pos hp] at h
            cases hnum : parseU32Chars nstr with
            | none =>
              rw [hnum] at h
              exact absurd h (by simp)
            | some n =>
              rw [hnum] at h
              dsimp only at h
              have hc : Coordinate.mk shape provider
                  (if s2 = ['-'] then none else some (String.mk s2))
                  (String.mk s3) (coordVersionFromStr (String.mk s4))
                  (some n) = c := by
                simpa using h
              subst hc
              exact ⟨s0, s1, s2, s3, s4, hsh, hpv, rfl, rfl, rfl,
                Or.inr ⟨n, nstr, by rw [hp], hnum, rfl⟩⟩
          · rw [if_neg hp] at h
            exact absurd h (by simp)
        | p :: q :: extra :: more =>
          dsimp only at h
          by_cases hp : p = ['p', 'r']
          · rw [if_pos hp] at h
            exact absurd h (by simp)
          · rw [if_neg hp] at h
            exact absurd h (by simp)

theorem slash_data : "/".data = ['/'] := rfl

theorem prslash_data : "/pr/".data = ['/', 'p', 'r', '/'] := rfl

theorem coordinateDisplay_data (c : Coordinate) :
    (coordinateDisplay c).data =
      (c.shape.as_str).data ++ '/' :: ((c.provider.as_str).data ++ '/' ::
      ((c.namespce.getD "-").data ++ '/' :: (c.name.data ++ '/' ::
      ((coordVersionDisplay c.version).data ++
      (match c.curation_pr with
       | some pr => '/' :: 'p' :: 'r' :: '/' :: natToDec pr
       | none => []))))) := by
  unfold coordinateDisplay coordDisp
  cases hpr : c.curation_pr with
  | none =>
    simp [String.data_append, coordinateAccessors, slash_data, hpr,
      show "".data = ([] : List Char) from rfl]
  | some n =>
    simp [String.data_append, coordinateAccessors, slash_data, prslash_data,
      natToDecStr, mk_data, hpr]

theorem natToDecAux_digits (n : Nat) :
    ∀ ch ∈ natToDecAux n, ch.isDigit = true := by
  induction n using Nat.strong_induction_on with
  | _ n ih =>
    rw [natToDecAux_unfold]
    by_cases h : n = 0
    · simp [h]
    · simp only [h, if_false]
      intro ch hch
      rcases List.mem_cons.mp hch with rfl | hch2
      · have hlt : n % 10 < 10 := Nat.mod_lt _ (by omega)
        interval_cases hm : (n % 10) <;> decide
      · exact ih (n / 10)
          (Nat.div_lt_self (Nat.pos_of_ne_zero h) (by omega)) ch hch2

theorem natToDec_digits (n : Nat) : ∀ ch ∈ natToDec n, ch.isDigit = true := by
  unfold natToDec
  by_cases h : n = 0
  · simp only [h, if_true]
    intro ch hch
    rcases List.mem_cons.mp hch with rfl | hch2
    · decide
    · simp at hch2
  · simp only [h, if_false]
    intro ch hch
    exact natToDecAux_digits n ch (List.mem_reverse.mp hch)

theorem natToDec_ne_nil (n : Nat) : natToDec n ≠ [] := by
  unfold natToDec
  by_cases h : n = 0
  · simp [h]
  · simp only [h, if_false]
    intro hrev
    rw [List.reverse_eq_nil_iff, natToDecAux_unfold] at hrev
    simp [h] at hrev

theorem noslash_natToDec (n : Nat) : '/' ∉ natToDec n := by
  intro hmem
  have hd := natToDec_digits n '/' hmem
  exact absurd hd (by decide)

theorem parseU32Chars_natToDec (n : Nat) (hb : n < 4294967296) :
    parseU32Chars (natToDec n) = some n := by
  unfold parseU32Chars
  rw [if_pos ⟨natToDec_ne_nil n,
    List.all_eq_true.mpr (fun ch hch => natToDec_digits n ch hch),
    by rw [digitsToNat_natToDec]; exact hb⟩]
  rw [digitsToNat_natToDec]

theorem shapeFromStr_error (s : String) (e0 : Error)
    (h : shapeFromStr s = .error e0) :
    shapeFromStr s = .error (.other ("unknown shape '" ++ s ++ "'")) := by
  by_cases h1 : s = "crate"
  · subst h1
    rw [show shapeFromStr "crate" = .ok .crate from rfl] at h
    exact absurd h (by simp)
  · by_cases h2 : s = "git"
    · subst h2
      rw [show shapeFromStr "git" = .ok .git from rfl] at h
      exact absurd h (by simp)
    · unfold shapeFromStr
      rw [if_neg h1, if_neg h2]

theorem providerFromStr_error (s : String) (e0 : Error)
    (h : providerFromStr s = .error e0) :
    providerFromStr s = .error (.other ("unknown provider '" ++ s ++ "'")) := by
  by_cases h1 : s = "cratesio"
  · subst h1
    rw [show providerFromStr "cratesio" = .ok .cratesio from rfl] at h
    exact absurd h (by simp)
  · by_cases h2 : s = "github"
    · subst h2
      rw [show providerFromStr "github" = .ok .github from rfl] at h
      exact absurd h (by simp)
    · unfold providerFromStr
      rw [if_neg h1, if_neg h2]

theorem parseCoordSegs_error (segs : List (List Char)) (e : CoordParseErr)
    (h : parseCoordSegs segs = .error e) : coordErrDescribes segs e := by
  match segs with
  | [] =>
    simp only [parseCoordSegs, Except.error.injEq] at h
    subst h
    exact rfl
  | [_] =>
    simp only [parseCoordSegs, Except.error.injEq] at h
    subst h
    exact rfl
  | [_, _] =>
    simp only [parseCoordSegs, Except.error.injEq] at h
    subst h
    exact rfl
  | [_, _, _] =>
    simp only [parseCoordSegs, Except.error.injEq] at h
    subst h
    exact rfl
  | [_, _, _, _] =>
    simp only [parseCoordSegs, Except.error.injEq] at h
    subst h
    exact rfl
  | s0 :: s1 :: s2 :: s3 :: s4 :: rest =>
    unfold parseCoordSegs at h
    dsimp only at h
    cases hsh : shapeFromStr (String.mk s0) with
    | error e0 =>
      rw [hsh] at h
      dsimp only at h
      injection h with he
      subst he
      refine ⟨?_, rfl, shapeFromStr_error _ e0 hsh⟩
      simp only [List.length_cons]
      omega
    | ok shape =>
      rw [hsh] at h
      dsimp only at h
      cases hpv : providerFromStr (String.mk s1) with
      | error e1 =>
        rw [hpv] at h
        dsimp only at h
        injection h with he
        subst he
        refine ⟨?_, rfl, providerFromStr_error _ e1 hpv⟩
        simp only [List.length_cons]
        omega
      | ok provider =>
        rw [hpv] at h
        dsimp only at h
        match rest with
        | [] =>
          dsimp only at h
          exact absurd h (by simp)
        | [p] =>
          dsimp only at h
          by_cases hp : p = ['p', 'r']
          · rw [if_pos hp] at h
            injection h with he
            subst he
            exact Or.inl ⟨rfl, by subst hp; rfl, rfl⟩
          · rw [if_neg hp] at h
            injection h with he
            subst he
            exact Or.inl ⟨Nat.le_refl 6, rfl, hp⟩
        | [p, nstr] =>
          dsimp only at h
          by_cases hp : p = ['p', 'r']
          · rw [if_pos hp] at h
            cases hnum : parseU32Chars nstr with
            | none =>
              rw [hnum] at h
              dsimp only at h
              injection h with he
              subst he
              exact Or.inr ⟨rfl, by subst hp; rfl, rfl, hnum⟩
            | some n =>
              rw [hnum] at h
              dsimp only at h
              exact absurd h (by simp)
          · rw [if_neg hp] at h
            injection h with he
            subst he
            exact Or.inl ⟨Nat.le_succ 6, rfl, hp⟩
        | p :: q :: extra :: more =>
          dsimp only at h
          by_cases hp : p = ['p', 'r']
          · rw [if_pos hp] at h
            injection h with he
            subst he
            refine Or.inr ⟨?_, by subst hp; rfl, rfl⟩
            simp only [List.length_cons]
            omega
          · rw [if_neg hp] at h
            injection h with he
            subst he
            refine Or.inl ⟨?_, rfl, hp⟩
            simp only [List.length_cons]
            omega

/-- Claim C5 (amended: the forward round-trip requires the PR-number
segment, when present, to be in canonical decimal form; the backward
round-trip requires the namespace to differ from `Some "-")`, the
namespace, name and displayed version to contain no `/`, the displayed
version to re-parse to the same version value, and the PR number to fit
in 32 bits — see the counterexample for the unrestricted statement.
Unchanged from the original claim, the third conjunct: whenever parsing
fails, the returned error is descriptive and correctly identifies the
failing positional segment of the slash-split input). -/
theorem c5_coordinate_roundtrip :
    (∀ (t : String) (c : Coordinate),
      parseCoordinate t = .ok c →
      (∀ n, c.curation_pr = some n →
        splitOnChar '/' t.data
          = (splitOnChar '/' t.data).take 5 ++ [['p', 'r'], natToDec n]) →
      coordinateDisplay c = t) ∧
    (∀ c : Coordinate,
      (∀ s, c.namespce = some s → s ≠ "-" ∧ '/' ∉ s.data) →
      '/' ∉ c.name.data →
      '/' ∉ (coordVersionDisplay c.version).data →
      coordVersionFromStr (coordVersionDisplay c.version) = c.version →
      (∀ n, c.curation_pr = some n → n < 4294967296) →
      parseCoordinate (coordinateDisplay c) = .ok c) ∧
    (∀ (t : String) (e : CoordParseErr),
      parseCoordinate t = .error e →
      coordErrDescribes (splitOnChar '/' t.data) e) := by
  refine ⟨?_, ?_, ?_⟩
  · intro t c hparse hcanon
    obtain ⟨s0, s1, s2, s3, s4, hsh, hpv, hns, hname, hver, hrest⟩ :=
      parseCoordSegs_ok _ c hparse
    apply String.ext
    rw [coordinateDisplay_data]
    have hs0 : (c.shape.as_str).data = s0 := by
      rw [shape_as_str_fromStr _ _ hsh]
    have hs1 : (c.provider.as_str).data = s1 := by
      rw [provider_as_str_fromStr _ _ hpv]
    have hs2 : (c.namespce.getD "-").data = s2 := by
      rw [hns]
      by_cases h2 : s2 = ['-']
      · rw [if_pos h2, h2]
        rfl
      · rw [if_neg h2]
        rfl
    have hs3 : c.name.data = s3 := by rw [hname]
    have hs4 : (coordVersionDisplay c.version).data = s4 := by
      rw [hver, coordVersionDisplay_fromStr]
    rcases hrest with ⟨hsegs, hpr⟩ | ⟨n, nstr, hsegs, hnum, hpr⟩
    · rw [hpr]
      have hj := joinSegs_splitOnChar '/' t.data
      rw [hsegs] at hj
      rw [← hj, hs0, hs1, hs2, hs3, hs4]
      simp [joinSegs]
    · have hnstr : nstr = natToDec n := by
        have hc2 := hcanon n hpr
        rw [hsegs] at hc2
        simpa using hc2
      rw [hpr]
      have hj := joinSegs_splitOnChar '/' t.data
      rw [hsegs] at hj
      rw [← hj, hs0, hs1, hs2, hs3, hs4, hnstr]
      simp [joinSegs]
  · intro c hns hname hver hvp hprb
    have hsh0 : '/' ∉ (c.shape.as_str).data := by
      cases c.shape <;> decide
    have hpv0 : '/' ∉ (c.provider.as_str).data := by
      cases c.provider <;> decide
    have hns0 : '/' ∉ ((c.namespce.getD "-").data) := by
      cases hcase : c.namespce with
      | none => decide
      | some s =>
        simp only [Option.getD_some]
        exact (hns s hcase).2
    have hnsval : (if ((c.namespce.getD "-").data) = ['-'] then none
        else some (String.mk ((c.namespce.getD "-").data))) = c.namespce := by
      cases hcase : c.namespce with
      | none => simp
      | some s =>
        obtain ⟨hsne, _⟩ := hns s hcase
        simp only [Option.getD_some]
        rw [if_neg (fun heq => hsne (String.ext heq)), mk_data]
    unfold parseCoordinate
    rw [coordinateDisplay_data]
    cases hpr : c.curation_pr with
    | none =>
      dsimp only
      rw [List.append_nil]
      rw [splitOnChar_append_notmem '/' _ _ hsh0,
        splitOnChar_append_notmem '/' _ _ hpv0,
        splitOnChar_append_notmem '/' _ _ hns0,
        splitOnChar_append_notmem '/' _ _ hname,
        splitOnChar_notmem '/' _ hver]
      unfold parseCoordSegs
      dsimp only
      rw [mk_data, mk_data, shapeFromStr_as_str]
      dsimp only
      rw [providerFromStr_as_str]
      dsimp only
      rw [mk_data, mk_data, hvp, hnsval, ← hpr]
    | some n =>
      dsimp only
      rw [show ((coordVersionDisplay c.version).data
            ++ '/' :: 'p' :: 'r' :: '/' :: natToDec n)
          = ((coordVersionDisplay c.version).data
            ++ '/' :: (['p', 'r'] ++ '/' :: natToDec n)) from rfl]
      rw [splitOnChar_append_notmem '/' _ _ hsh0,
        splitOnChar_append_notmem '/' _ _ hpv0,
        splitOnChar_append_notmem '/' _ _ hns0,
        splitOnChar_append_notmem '/' _ _ hname,
        splitOnChar_append_notmem '/' _ _ hver,
        splitOnChar_append_notmem '/' (['p', 'r']) _ (by decide),
        splitOnChar_notmem '/' _ (noslash_natToDec n)]
      unfold parseCoordSegs
      dsimp only
      rw [mk_data, mk_data, shapeFromStr_as_str]
      dsimp only
      rw [providerFromStr_as_str]
      dsimp only
      rw [if_pos rfl, parseU32Chars_natToDec n (hprb n hpr)]
      dsimp only
      rw [mk_data, mk_data, hvp, hnsval, ← hpr]
  · intro t e h
    exact parseCoordSegs_error _ e h

def cNsDash : Coordinate :=
  Coordinate.mk .crate .cratesio (some "-") "syn" (.Any "abc") none

/-- The unrestricted round-trip claim fails: a coordinate whose
namespace is literally `Some "-"` formats to a text that parses back
with namespace `None`, and a valid text with a non-canonical PR number
(`042`) parses but re-formats to `42`. -/
theorem c5_coordinate_roundtrip_counterexample :
    parseCoordinate (coordinateDisplay cNsDash)
      = .ok (Coordinate.mk .crate .cratesio none "syn" (.Any "abc") none) ∧
    Coordinate.mk .crate .cratesio none "syn" (.Any "abc") none ≠ cNsDash ∧
    parseCoordinate "crate/cratesio/-/syn/1.0.0/pr/042"
      = .ok (Coordinate.mk .crate .cratesio none "syn"
          (.Version (SemVer.mk 1 0 0 [] [])) (some 42)) ∧
    coordinateDisplay (Coordinate.mk .crate .cratesio none "syn"
        (.Version (SemVer.mk 1 0 0 [] [])) (some 42))
      ≠ "crate/cratesio/-/syn/1.0.0/pr/042" := by
  refine ⟨rfl, by decide, rfl, by decide⟩

theorem c5_coordinate_roundtrip_witness :
    coordinateDisplay (Coordinate.mk .git .github (some "myorg") "myrepo"
        (.Any "abcdef") (some 42))
      = "git/github/myorg/myrepo/abcdef/pr/42" ∧
    parseCoordinate (coordinateDisplay (Coordinate.mk .crate .cratesio none
        "syn" (.Version (SemVer.mk 1 0 14 [] [])) none))
      = .ok (Coordinate.mk .crate .cratesio none "syn"
          (.Version (SemVer.mk 1 0 14 [] [])) none) ∧
    coordErrDescribes (splitOnChar '/' "crate/cratesio/-".data)
      CoordParseErr.missingName ∧
    coordErrDescribes
      (splitOnChar '/' "crate/cratesio/-/syn/1.0.0/pr/xx".data)
      (CoordParseErr.badPrNumber "xx") := by
  refine ⟨?_, ?_, ?_, ?_⟩
  · refine c5_coordinate_roundtrip.1 "git/github/myorg/myrepo/abcdef/pr/42"
      (Coordinate.mk .git .github (some "myorg") "myrepo" (.Any "abcdef")
        (some 42)) rfl ?_
    intro n hn
    injection hn with h2
    subst h2
    decide
  · refine c5_coordinate_roundtrip.2.1 (Coordinate.mk .crate .cratesio none
      "syn" (.Version (SemVer.mk 1 0 14 [] [])) none) ?_ ?_ ?_ ?_ ?_
    · intro s hs
      exact absurd hs (by simp)
    · decide
    · decide
    · decide
    · intro n hn
      exact absurd hn (by simp)
  · exact c5_coordinate_roundtrip.2.2 "crate/cratesio/-"
      CoordParseErr.missingName rfl
  · exact c5_coordinate_roundtrip.2.2 "crate/cratesio/-/syn/1.0.0/pr/xx"
      (CoordParseErr.badPrNumber "xx") rfl

end ClearlyDefined
